import Mathlib

/-!
Verification of the `beads` markdown (exploded-file) storage backend.

This file shallowly embeds the Go code of `internal/storage/markdown/`
(`storage.go`, `lock.go`, `stubs.go`, `update.go`) in Lean 4 and proves or
refutes a fixed list of claims about it.

Modelling conventions:
* Go strings are Lean `String`s; the string helpers used by the code
  (`strings.Split`, `strings.Join`, `strings.Contains`, `strings.HasSuffix`,
  `strconv.Atoi`) are re-implemented below with Go semantics.
* `time.Time` is modelled as `Int` (an abstract instant); `time.Now()` becomes
  an explicit `now : Int` parameter.
* Go `int` is 64-bit; additions that may overflow are reduced modulo `2^64`
  into `[-2^63, 2^63)` by `wrapInt64`.
* The issues directory is modelled as an association list from file name to
  file content.  File contents are modelled abstractly: a well-formed
  serialized issue file is `Content.issue i` (the issue it serializes), any
  other byte string is `Content.blob`.  Accordingly `issueToMarkdown` is the
  constructor and `markdownToIssue` the destructor (plus the ID rewriting the
  real parser performs); this reflects the round-trip behaviour of the
  YAML-frontmatter serializer without modelling YAML byte syntax.
* The single-process view: the retry loop of `lockFile` makes no progress
  against a filesystem that no other live process mutates, so it is modelled
  by its limit (immediate success, stale-lock break, or the 30 s timeout
  error).  Liveness of a PID is modelled by an explicit list `live` of live
  PIDs (`processExists pid = pid ∈ live`).
-/

namespace Beads

/-! ## Data model (internal/types, as used by the markdown backend)

`types.Status`, `types.IssueType` and `types.DependencyType` are Go string
types; they are modelled as plain strings. -/

/-- A dependency record `(issue_id, depends_on_id, type)`. -/
structure Dependency where
  issueID : String
  dependsOnID : String
  dtype : String
deriving Repr, DecidableEq

/-- An issue, with the fields the markdown backend reads and writes. -/
structure Issue where
  id : String
  title : String := ""
  description : String := ""
  design : String := ""
  acceptanceCriteria : String := ""
  notes : String := ""
  status : String := "open"
  priority : Int := 0
  issueType : String := "task"
  assignee : String := ""
  externalRef : Option String := none
  labels : List String := []
  createdAt : Int := 0
  updatedAt : Int := 0
  closedAt : Option Int := none
  dependencies : List Dependency := []
deriving Repr, DecidableEq

/-! ## Go string helpers -/

/-- Whether `s` starts with the character sequence `pat` (helper for
`strings.Contains`). -/
def startsWithSeq : List Char → List Char → Bool
  | [], _ => true
  | _ :: _, [] => false
  | a :: as, b :: bs => a == b && startsWithSeq as bs

/-- `strings.Contains`: whether `sub` occurs as a contiguous substring of `s`. -/
def containsSeq (needle : List Char) : List Char → Bool
  | [] => startsWithSeq needle []
  | c :: rest => startsWithSeq needle (c :: rest) || containsSeq needle rest

/-- `strings.Contains` on strings (helper `contains` in update.go). -/
def goContains (s sub : String) : Bool := containsSeq sub.toList s.toList

/-- `strings.HasSuffix` on strings (helper `hasSuffix` in update.go). -/
def goHasSuffix (s sfx : String) : Bool := sfx.toList.isSuffixOf s.toList

/-- `strings.Split` with a single-character separator: Go semantics
(`Split("", "-") = [""]`, trailing separators yield empty fields). -/
def splitOnChar (sep : Char) : List Char → List (List Char)
  | [] => [[]]
  | c :: cs =>
    if c = sep then [] :: splitOnChar sep cs
    else
      match splitOnChar sep cs with
      | [] => [[c]]
      | h :: t => (c :: h) :: t

/-- `strings.Split(s, "-")`. -/
def goSplitDash (s : String) : List String :=
  (splitOnChar '-' s.toList).map (fun cs => String.mk cs)

/-- `strings.Join(parts, "-")`. -/
def goJoinDash (parts : List String) : String :=
  String.intercalate "-" parts

/-- `MaxInt64`. -/
def maxInt64 : Int := 2 ^ 63 - 1

/-- Reduce an integer modulo `2^64` into `[-2^63, 2^63)`: the value a Go
(64-bit) `int` addition actually produces. -/
def wrapInt64 (n : Int) : Int := (n + 2 ^ 63) % 2 ^ 64 - 2 ^ 63

/-- `strconv.Atoi` on a 64-bit platform: optional sign, at least one digit,
nothing else, and the value must fit in `int64` (otherwise `ErrRange`).
Returns `none` on any error. -/
def goAtoi (s : String) : Option Int :=
  let (sign, ds) : Int × List Char :=
    match s.toList with
    | '+' :: rest => (1, rest)
    | '-' :: rest => (-1, rest)
    | rest => (1, rest)
  if ds.isEmpty then none
  else if ds.all (·.isDigit) then
    let n : Nat := ds.foldl (fun a c => a * 10 + (c.toNat - 48)) 0
    let v : Int := sign * (n : Int)
    if v < -(2 ^ 63) ∨ v > maxInt64 then none else some v
  else none

/-! ## Derived counters (part of storage.go: `getMaxIDForPrefix`,
`IncrementCounter`)

The markdown backend derives the next issue number for a prefix by scanning
the file names of the issues directory.  The scan is a pure function of the
directory listing, which we model as the list of entry names (regular files;
`os.ReadDir` returns them sorted, but the maximum does not depend on order).
-/

/-- The file-name skip test used throughout the backend: lock, temp and trash
artifacts are ignored. -/
def isArtifactName (name : String) : Bool :=
  goContains name ".lock." || goContains name ".tmp." || goContains name ".trash."

/-- The parse performed on each entry by the scan loop of
`getMaxIDForPrefix`: for a non-artifact `.md` file whose name without
extension splits on `-` into ≥ 2 parts whose initial parts re-join to `pfx`,
the `strconv.Atoi` of the last part; `none` whenever any step fails. -/
def parsedSuffix? (name pfx : String) : Option Int :=
  if !goHasSuffix name ".md" then none
  else if isArtifactName name then none
  else
    let issueID := name.dropRight 3
    let parts := goSplitDash issueID
    if parts.length ≥ 2 then
      let filePfx := goJoinDash parts.dropLast
      if filePfx = pfx then goAtoi (parts.getLastD "")
      else none
    else none

/-- One step of the scan loop in `getMaxIDForPrefix`: fold the entry `name`
into the running maximum `maxID` for prefix `pfx` (`if num > maxID { maxID =
num }`). -/
def entryMaxStep (pfx : String) (maxID : Int) (name : String) : Int :=
  match parsedSuffix? name pfx with
  | some num => if num > maxID then num else maxID
  | none => maxID

/-- `getMaxIDForPrefix`: maximum numeric suffix among issue files
`<pfx>-<n>.md` in the directory listing, `0` if there are none. -/
def getMaxIDForPrefix (entries : List String) (pfx : String) : Int :=
  entries.foldl (entryMaxStep pfx) 0

/-- `IncrementCounter` of the markdown backend: `getMaxIDForPrefix + 1`,
computed in Go 64-bit `int` arithmetic.  No persistent counter state is
consulted: the function reads only the directory listing. -/
def IncrementCounter (entries : List String) (pfx : String) : Int :=
  wrapInt64 (getMaxIDForPrefix entries pfx + 1)

/-- An entry `name` *parses as* prefix `pfx` with numeric suffix `n` when the
scan loop of `getMaxIDForPrefix` would extract `n` from it. -/
def ParsesAs (name pfx : String) (n : Int) : Prop :=
  parsedSuffix? name pfx = some n

/-! ### C1 lemmas -/

theorem le_entryMaxStep (pfx : String) (acc : Int) (name : String) :
    acc ≤ entryMaxStep pfx acc name := by
  unfold entryMaxStep
  cases parsedSuffix? name pfx with
  | none => exact le_refl _
  | some num => dsimp only; split <;> omega

theorem parsed_le_entryMaxStep {name pfx : String} {n : Int} (h : ParsesAs name pfx n)
    (acc : Int) : n ≤ entryMaxStep pfx acc name := by
  unfold entryMaxStep
  rw [h]
  dsimp only; split <;> omega

theorem entryMaxStep_le {name pfx : String} {acc k : Int} (hacc : acc ≤ k)
    (hp : ∀ n : Int, ParsesAs name pfx n → n ≤ k) :
    entryMaxStep pfx acc name ≤ k := by
  unfold entryMaxStep
  cases hps : parsedSuffix? name pfx with
  | none => exact hacc
  | some num =>
    dsimp only; split
    · exact hp num hps
    · exact hacc

theorem le_foldl_entryMaxStep (pfx : String) (entries : List String) (acc : Int) :
    acc ≤ entries.foldl (entryMaxStep pfx) acc := by
  induction entries generalizing acc with
  | nil => exact le_refl _
  | cons e es ih =>
    exact le_trans (le_entryMaxStep pfx acc e) (ih (entryMaxStep pfx acc e))

theorem parsed_le_getMaxIDForPrefix {entries : List String} {pfx name : String}
    {n : Int} (hmem : name ∈ entries) (hp : ParsesAs name pfx n) :
    n ≤ getMaxIDForPrefix entries pfx := by
  unfold getMaxIDForPrefix
  generalize (0 : Int) = acc
  induction entries generalizing acc with
  | nil => cases hmem
  | cons e es ih =>
    rcases List.mem_cons.mp hmem with rfl | hmem'
    · exact le_trans (parsed_le_entryMaxStep hp acc)
        (le_foldl_entryMaxStep pfx es (entryMaxStep pfx acc name))
    · exact ih hmem' _

theorem getMaxIDForPrefix_le {entries : List String} {pfx : String} {k : Int}
    (hk : 0 ≤ k) (hb : ∀ name ∈ entries, ∀ n : Int, ParsesAs name pfx n → n ≤ k) :
    getMaxIDForPrefix entries pfx ≤ k := by
  unfold getMaxIDForPrefix
  have : ∀ acc : Int, acc ≤ k → entries.foldl (entryMaxStep pfx) acc ≤ k := by
    induction entries with
    | nil => intro acc h; exact h
    | cons e es ih =>
      intro acc hacc
      exact ih (fun name hm => hb name (List.mem_cons_of_mem e hm))
        _ (entryMaxStep_le hacc (hb e (List.mem_cons_self e es)))
  exact this 0 hk

theorem wrapInt64_eq_self {n : Int} (h1 : -(2 ^ 63) ≤ n) (h2 : n ≤ maxInt64) :
    wrapInt64 n = n := by
  unfold wrapInt64
  unfold maxInt64 at h2
  omega

/-! ### C1 theorems -/

/-- **C1 (counterexample).**  The claim fails at the input where the maximal
parsed suffix is `MaxInt64`: the issue file `p-9223372036854775807.md` is
present and parses with suffix `2^63 - 1`, and `IncrementCounter` computes
`maxID + 1` in Go `int` arithmetic, which wraps to `-2^63` — not strictly
greater than the suffix. -/
theorem c1_counterexample :
    ParsesAs "p-9223372036854775807.md" "p" maxInt64 ∧
      IncrementCounter ["p-9223372036854775807.md"] "p" = -(2 ^ 63) ∧
      ¬ maxInt64 < IncrementCounter ["p-9223372036854775807.md"] "p" := by
  refine ⟨by unfold ParsesAs; decide, by decide, by decide⟩

/-- **C1 (amended).**  Provided every issue file of prefix `p` has numeric
suffix below `MaxInt64` (so that `maxID + 1` does not overflow),
`IncrementCounter(p)` of the exploded backend returns a value strictly
greater than the numeric suffix of every issue file with prefix `p` present
in the directory listing; the value is derived purely from the listing
(`getMaxIDForPrefix + 1`), with no persistent counter state consulted. -/
theorem c1_increment_counter_dominates (entries : List String) (pfx : String)
    (hbound : ∀ name ∈ entries, ∀ n : Int, ParsesAs name pfx n → n < maxInt64) :
    ∀ name ∈ entries, ∀ n : Int, ParsesAs name pfx n →
      n < IncrementCounter entries pfx := by
  intro name hmem n hp
  have hmax0 : 0 ≤ getMaxIDForPrefix entries pfx := le_foldl_entryMaxStep pfx entries 0
  have hmaxle : getMaxIDForPrefix entries pfx ≤ maxInt64 - 1 := by
    refine getMaxIDForPrefix_le (by unfold maxInt64; omega) ?_
    intro nm hm k hk
    have := hbound nm hm k hk
    omega
  have hle : n ≤ getMaxIDForPrefix entries pfx := parsed_le_getMaxIDForPrefix hmem hp
  have hwrap : IncrementCounter entries pfx = getMaxIDForPrefix entries pfx + 1 := by
    unfold IncrementCounter
    refine wrapInt64_eq_self (by omega) (by omega)
  omega

/-- **C1 (witness).**  On the listing `["p-3.md", "p-7.md", "junk.txt"]` the
amended theorem applies and yields `7 < IncrementCounter = 8`. -/
theorem c1_witness :
    (7 : Int) < IncrementCounter ["p-3.md", "p-7.md", "junk.txt"] "p" := by
  have hb : ∀ name ∈ (["p-3.md", "p-7.md", "junk.txt"] : List String),
      ∀ n : Int, ParsesAs name "p" n → n < maxInt64 := by
    intro name hmem n hp
    unfold ParsesAs at hp
    fin_cases hmem
    · rw [show parsedSuffix? "p-3.md" "p" = some 3 from by decide] at hp
      simp at hp; unfold maxInt64; omega
    · rw [show parsedSuffix? "p-7.md" "p" = some 7 from by decide] at hp
      simp at hp; unfold maxInt64; omega
    · rw [show parsedSuffix? "junk.txt" "p" = none from by decide] at hp
      cases hp
  exact c1_increment_counter_dominates _ "p" hb "p-7.md" (by decide) 7
    (by unfold ParsesAs; decide)

/-! ## Filesystem model

The issues directory is an association list from file name (relative to the
issues directory; these names contain no path separator) to file content.
Contents are abstract: `Content.issue i` is the well-formed serialization of
issue `i`, `Content.blob` any other byte string. -/

/-- Abstract file content. -/
inductive Content where
  | issue (i : Issue)
  | blob (s : String)
deriving Repr, DecidableEq

/-- The issues directory: an association list name ↦ content. -/
abbrev Fs := List (String × Content)

/-- Read a file (`os.ReadFile` succeeds iff the name is present). -/
def Fs.read? (fs : Fs) (p : String) : Option Content :=
  (fs.find? (fun e => e.1 == p)).map (·.2)

/-- Drop every entry named `p`. -/
def Fs.removeAll (fs : Fs) (p : String) : Fs :=
  fs.filter (fun e => e.1 ≠ p)

/-- `os.Remove`: errors when the file does not exist. -/
def Fs.removeE (fs : Fs) (p : String) : Except String Fs :=
  match fs.read? p with
  | none => .error "remove: no such file"
  | some _ => .ok (fs.removeAll p)

/-- `_ = os.Remove(p)`: best-effort removal, the error is discarded. -/
def Fs.removeBE (fs : Fs) (p : String) : Fs := fs.removeAll p

/-- `os.WriteFile`: create or truncate. -/
def Fs.write (fs : Fs) (p : String) (c : Content) : Fs :=
  fs.removeAll p ++ [(p, c)]

/-- `os.Rename`: errors when the source does not exist, silently replaces the
destination otherwise (POSIX semantics). -/
def Fs.renameE (fs : Fs) (src dst : String) : Except String Fs :=
  match fs.read? src with
  | none => .error "rename: no such file"
  | some c => .ok ((fs.removeAll src).removeAll dst ++ [(dst, c)])

/-- `_ = os.Rename(src, dst)`: best-effort rename, the error is discarded. -/
def Fs.renameBE (fs : Fs) (src dst : String) : Fs :=
  match fs.renameE src dst with
  | .ok fs' => fs'
  | .error _ => fs

/-- The file names present, in listing order. -/
def Fs.names (fs : Fs) : List String := fs.map (·.1)

/-- Insert into a sorted list of names. -/
def insertSorted (a : String) : List String → List String
  | [] => [a]
  | b :: bs => if a ≤ b then a :: b :: bs else b :: insertSorted a bs

/-- `filepath.Glob` returns matches sorted by name (insertion sort; only the
sorted order matters). -/
def sortNames (l : List String) : List String :=
  l.foldr insertSorted []

/-- `filepath.Glob(pat ++ "*")` for a literal `pat`: names starting with
`pat`, sorted. -/
def globStartsWith (fs : Fs) (pat : String) : List String :=
  sortNames (fs.names.filter (fun n => startsWithSeq pat.toList n.toList))

/-- `filepath.Glob("*" ++ sub ++ "*")` for a literal `sub`: names containing
`sub`, sorted. -/
def globContains (fs : Fs) (sub : String) : List String :=
  sortNames (fs.names.filter (fun n => goContains n sub))

/-! ## Lock protocol (lock.go) -/

/-- `strings.Split` with an arbitrary separator (Go semantics, non-empty
separator, non-overlapping left-to-right matches).  Structural recursion on
an explicit fuel (each step consumes at least one character, so fuel equal to
the string length always suffices). -/
def splitSeqGo (sep : List Char) : Nat → List Char → List (List Char)
  | _, [] => [[]]
  | 0, s => [s]
  | fuel + 1, c :: cs =>
    if sep ≠ [] ∧ startsWithSeq sep (c :: cs) = true then
      [] :: splitSeqGo sep fuel ((c :: cs).drop sep.length)
    else
      match splitSeqGo sep fuel cs with
      | [] => [[c]]
      | p :: t => (c :: p) :: t

/-- `strings.Split(s, sep)` for a non-empty separator. -/
def splitOnSeq (sep s : List Char) : List (List Char) :=
  splitSeqGo sep s.length s

/-- `extractPID`: the numeric component after the final `.` of a
lock/tmp/trash file name, `0` on any parse failure. -/
def extractPID (filename : String) : Int :=
  let parts := (splitOnChar '.' filename.toList).map (fun cs => String.mk cs)
  if parts.length < 2 then 0
  else
    match goAtoi (parts.getLastD "") with
    | some pid => pid
    | none => 0

/-- `getLockIssuePath`: recover `<id>.md` from `<id>.md.lock.<pid>`; `""`
when the name does not split on `.lock.` into exactly two parts. -/
def getLockIssuePath (lockPath : String) : String :=
  let parts := (splitOnSeq ".lock.".toList lockPath.toList).map (fun cs => String.mk cs)
  if parts.length ≠ 2 then "" else parts.getD 0 ""

/-- `getIssuePath` (relative to the issues directory). -/
def getIssuePath (issueID : String) : String := issueID ++ ".md"

/-- In-memory storage state: the issues directory, our PID, and the map of
locks held by this process (`m.locks`; newest binding first, as the lookup
finds the most recent insertion like a Go map). -/
structure MStore where
  fs : Fs
  pid : Int
  locks : List (String × String)
deriving Repr, DecidableEq

/-- `processExists(pid)`: membership in the explicit list of live PIDs. -/
def processExists (live : List Int) (pid : Int) : Bool := pid ∈ live

/-- `tryBreakStaleLock`: rename the first dead-owner lock file back to its
issue path (best effort) and report success; `none` when every lock file has
a live or unparsable owner. -/
def tryBreakStaleLock (live : List Int) (fs : Fs) : List String → Option Fs
  | [] => none
  | f :: rest =>
    let pid := extractPID f
    if pid = 0 then tryBreakStaleLock live fs rest
    else if processExists live pid then tryBreakStaleLock live fs rest
    else
      let ip := getLockIssuePath f
      if ip ≠ "" then some (fs.renameBE f ip)
      else tryBreakStaleLock live fs rest

/-- `lockFile`: acquire the lock on `issueID` by renaming `<id>.md` to
`<id>.md.lock.<pid>`.

The Go function retries with 100 ms backoff for up to 30 s.  Against a
filesystem that no other live process mutates the loop makes no progress, so
it is modelled by its limit: immediate success; or, when the issue file is
absent, one stale-lock break followed by a retry; otherwise (foreign live
lock, or nothing to lock) the timeout error. -/
def lockFile (live : List Int) (st : MStore) (issueID : String) :
    Except String (MStore × String) :=
  match st.locks.find? (fun e => e.1 == issueID) with
  | some e => .ok (st, e.2)
  | none =>
    let ip := getIssuePath issueID
    let lp := ip ++ ".lock." ++ toString st.pid
    match st.fs.renameE ip lp with
    | .ok fs' => .ok ({ st with fs := fs', locks := (issueID, lp) :: st.locks }, lp)
    | .error _ =>
      let lockFiles := globStartsWith st.fs (ip ++ ".lock.")
      if lockFiles.isEmpty then .error ("timeout acquiring lock for " ++ issueID)
      else
        match tryBreakStaleLock live st.fs lockFiles with
        | some fs1 =>
          match fs1.renameE ip lp with
          | .ok fs2 => .ok ({ st with fs := fs2, locks := (issueID, lp) :: st.locks }, lp)
          | .error _ => .error ("timeout acquiring lock for " ++ issueID)
        | none => .error ("timeout acquiring lock for " ++ issueID)

/-- `unlockFile`: rename the lock file back to the issue path; on success the
lock is dropped from `m.locks`, on failure the state is returned unchanged
(the Go function returns early with the error). -/
def unlockFile (st : MStore) (issueID lockPath : String) : MStore × Bool :=
  match st.fs.renameE lockPath (getIssuePath issueID) with
  | .error _ => (st, false)
  | .ok fs' =>
    ({ st with fs := fs', locks := st.locks.filter (fun e => e.1 ≠ issueID) }, true)

/-- `commitFile`: publish `tempPath` over the issue path, move the lock to
trash (best effort), remove the trash (best effort), drop the lock. -/
def commitFile (st : MStore) (issueID lockPath tempPath : String) :
    Except String MStore :=
  let ip := getIssuePath issueID
  let trash := ip ++ ".trash." ++ toString st.pid
  match st.fs.renameE tempPath ip with
  | .error _ => .error "failed to commit changes"
  | .ok fs1 =>
    let fs2 := fs1.renameBE lockPath trash
    let fs3 := fs2.removeBE trash
    .ok { st with fs := fs3, locks := st.locks.filter (fun e => e.1 ≠ issueID) }

/-- `cleanupStaleLocks`, one glob pattern: for every matched file whose
embedded PID parses, is non-zero and is dead, the file is **removed**, and
then — for lock files — a rename of the (just removed) file back to the issue
path is attempted, whose error is discarded. -/
def cleanupPatternPass (live : List Int) (fs : Fs) (files : List String) : Fs :=
  files.foldl
    (fun fs1 file =>
      let pid := extractPID file
      if pid = 0 then fs1
      else if processExists live pid then fs1
      else
        let fs2 := fs1.removeBE file
        if goContains file ".lock." then
          let ip := getLockIssuePath file
          if ip ≠ "" then fs2.renameBE file ip else fs2
        else fs2)
    fs

/-- `cleanupStaleLocks`: the startup sweep over the three artifact patterns,
in the order of the Go `patterns` slice. -/
def cleanupStaleLocks (live : List Int) (fs : Fs) : Fs :=
  let fs1 := cleanupPatternPass live fs (globContains fs ".lock.")
  let fs2 := cleanupPatternPass live fs1 (globContains fs1 ".tmp.")
  cleanupPatternPass live fs2 (globContains fs2 ".trash.")

/-! ## Serialization (serialize.go: `issueToMarkdown`, `markdownToIssue`)

Contents are abstract (see the module comment): `issueToMarkdown` tags the
issue, `markdownToIssue` untags it and — like the real parser, which receives
the ID from the file name and stamps it into the issue and into the source
side of every dependency — rewrites the IDs.  Parsing any other content
fails. -/

/-- The parser stamps the file's ID into each dependency's source. -/
def rekeyDependency (issueID : String) (d : Dependency) : Dependency :=
  { d with issueID := issueID }

/-- `markdownToIssue`. -/
def markdownToIssue (issueID : String) (c : Content) : Except String Issue :=
  match c with
  | .issue i =>
    .ok { i with id := issueID,
                 dependencies := i.dependencies.map (rekeyDependency issueID) }
  | .blob _ => .error "invalid markdown format: missing frontmatter"

/-- `issueToMarkdown`. -/
def issueToMarkdown (i : Issue) : Content := .issue i

/-! ## Issue operations (storage.go, newer revision) -/

/-- `GetIssue`: read the issue file; when it is absent, fall back to the
first matching lock file; when neither exists, return the `nil` sentinel with
no error (matching the SQLite backend). -/
def GetIssue (st : MStore) (id : String) : Except String (Option Issue) :=
  let ip := getIssuePath id
  match st.fs.read? ip with
  | some data =>
    match markdownToIssue id data with
    | .ok i => .ok (some i)
    | .error e => .error ("failed to parse issue: " ++ e)
  | none =>
    match (globStartsWith st.fs (ip ++ ".lock.")).head? with
    | none => .ok none
    | some l0 =>
      match st.fs.read? l0 with
      | none => .ok none
      | some data =>
        match markdownToIssue id data with
        | .ok i => .ok (some i)
        | .error e => .error ("failed to parse issue: " ++ e)

/-! ## Field-map updates (update.go: `applyUpdates`)

A Go `map[string]interface{}` entry is modelled as a key together with a
`UVal`; the dynamic type switches of the Go code become matches on the
constructor.  The numeric cases `int`/`int64`/`float64` of `priority` are
collapsed into `vInt`, and the `[]interface{}` case of `labels` into
`vStrList` (the Go code converts both to the same representation).  Go map
iteration order is unspecified; the update list fixes one order, and the
properties proved below do not depend on it. -/

/-- A dynamically-typed update value. -/
inductive UVal where
  | vStr (s : String)
  | vStatus (s : String)
  | vIType (s : String)
  | vInt (n : Int)
  | vTime (t : Int)
  | vTimePtr (t : Option Int)
  | vNil
  | vStrList (l : List String)
deriving Repr, DecidableEq

/-- One case of the `switch key` in `applyUpdates`. -/
def applyUpdate1 (issue : Issue) (key : String) (v : UVal) : Except String Issue :=
  if key = "title" then
    match v with
    | .vStr s => .ok { issue with title := s }
    | _ => .error "invalid type for title: expected string"
  else if key = "description" then
    match v with
    | .vStr s => .ok { issue with description := s }
    | _ => .error "invalid type for description: expected string"
  else if key = "design" then
    match v with
    | .vStr s => .ok { issue with design := s }
    | _ => .error "invalid type for design: expected string"
  else if key = "notes" then
    match v with
    | .vStr s => .ok { issue with notes := s }
    | _ => .error "invalid type for notes: expected string"
  else if key = "acceptance_criteria" then
    match v with
    | .vStr s => .ok { issue with acceptanceCriteria := s }
    | _ => .error "invalid type for acceptance_criteria: expected string"
  else if key = "status" then
    match v with
    | .vStr s => .ok { issue with status := s }
    | .vStatus s => .ok { issue with status := s }
    | _ => .error "invalid type for status: expected string or types.Status"
  else if key = "priority" then
    match v with
    | .vInt n => .ok { issue with priority := n }
    | _ => .error "invalid type for priority: expected int"
  else if key = "issue_type" then
    match v with
    | .vStr s => .ok { issue with issueType := s }
    | .vIType s => .ok { issue with issueType := s }
    | _ => .error "invalid type for issue_type: expected string or types.IssueType"
  else if key = "assignee" then
    match v with
    | .vNil => .ok { issue with assignee := "" }
    | .vStr s => .ok { issue with assignee := s }
    | _ => .error "invalid type for assignee: expected string or nil"
  else if key = "external_ref" then
    match v with
    | .vStr s => .ok { issue with externalRef := some s }
    | .vNil => .ok { issue with externalRef := none }
    | _ => .error "invalid type for external_ref: expected string or nil"
  else if key = "labels" then
    match v with
    | .vStrList l => .ok { issue with labels := l }
    | _ => .error "invalid type for labels: expected []string"
  else if key = "closed_at" then
    match v with
    | .vNil => .ok { issue with closedAt := none }
    | .vTime t => .ok { issue with closedAt := some t }
    | .vTimePtr t => .ok { issue with closedAt := t }
    | _ => .error "invalid type for closed_at: expected time.Time or nil"
  else if key = "updated_at" then
    match v with
    | .vTime t => .ok { issue with updatedAt := t }
    | _ => .error "invalid type for updated_at: expected time.Time"
  else .error ("unknown field for update: " ++ key)

/-- `applyUpdates`: fold the update entries over the issue, stopping at the
first error. -/
def applyUpdates (issue : Issue) : List (String × UVal) → Except String Issue
  | [] => .ok issue
  | (k, v) :: rest =>
    match applyUpdate1 issue k v with
    | .error e => .error e
    | .ok issue' => applyUpdates issue' rest

/-- The update keys recognized by `applyUpdates`. -/
def recognizedKeys : List String :=
  ["title", "description", "design", "notes", "acceptance_criteria", "status",
   "priority", "issue_type", "assignee", "external_ref", "labels",
   "closed_at", "updated_at"]

/-- `UpdateIssue`: lock, read the pre-edit content from the lock file, apply
the field map, stamp `updated_at := time.Now()`, write the temp file, commit.
Every error path runs the deferred best-effort unlock.  Returns the final
state and the error, if any. -/
def UpdateIssue (live : List Int) (st : MStore) (id : String)
    (updates : List (String × UVal)) (now : Int) : MStore × Option String :=
  match lockFile live st id with
  | .error e => (st, some ("failed to lock issue: " ++ e))
  | .ok (st1, lp) =>
    match st1.fs.read? lp with
    | none => ((unlockFile st1 id lp).1, some "failed to read issue")
    | some data =>
      match markdownToIssue id data with
      | .error e => ((unlockFile st1 id lp).1, some ("failed to parse issue: " ++ e))
      | .ok issue =>
        match applyUpdates issue updates with
        | .error e =>
          ((unlockFile st1 id lp).1, some ("failed to apply updates: " ++ e))
        | .ok issue1 =>
          let issue2 := { issue1 with updatedAt := now }
          let tempPath := getIssuePath id ++ ".tmp." ++ toString st1.pid
          let st2 : MStore := { st1 with fs := st1.fs.write tempPath (issueToMarkdown issue2) }
          match commitFile st2 id lp tempPath with
          | .ok st3 => (st3, none)
          | .error e =>
            ((unlockFile { st2 with fs := st2.fs.removeBE tempPath } id lp).1,
             some (e))

/-- `DeleteIssue`: lock the issue (renaming its file away) and remove the
lock file. -/
def DeleteIssue (live : List Int) (st : MStore) (id : String) :
    MStore × Option String :=
  match lockFile live st id with
  | .error e => (st, some ("failed to lock issue: " ++ e))
  | .ok (st1, lp) =>
    match st1.fs.removeE lp with
    | .error _ => ((unlockFile st1 id lp).1, some "failed to delete issue")
    | .ok fs2 =>
      ({ st1 with fs := fs2, locks := st1.locks.filter (fun e => e.1 ≠ id) }, none)

/-! ## Convenience operations (stubs.go) -/

/-- `CloseIssue`: `UpdateIssue` with `{status: closed, closed_at: now,
updated_at: now}` (the Go map's iteration order is irrelevant: the keys are
distinct fields). -/
def CloseIssue (live : List Int) (st : MStore) (id : String) (now : Int) :
    MStore × Option String :=
  UpdateIssue live st id
    [("status", .vStatus "closed"), ("closed_at", .vTime now),
     ("updated_at", .vTime now)] now

/-- `AddLabel`: read the issue (unlocked read); no-op when the label is
already present, otherwise update `labels` with the label appended.  When
`GetIssue` returns the `nil` sentinel the Go code dereferences a nil pointer;
that crash is modelled as an error. -/
def AddLabel (live : List Int) (st : MStore) (issueID lbl : String) (now : Int) :
    MStore × Option String :=
  match GetIssue st issueID with
  | .error e => (st, some e)
  | .ok none => (st, some "panic: runtime error: invalid memory address or nil pointer dereference")
  | .ok (some issue) =>
    if lbl ∈ issue.labels then (st, none)
    else
      UpdateIssue live st issueID
        [("labels", .vStrList (issue.labels ++ [lbl]))] now

/-- `RemoveLabel`: read the issue (unlocked read); no-op when the label is
absent, otherwise update `labels` with every occurrence filtered out. -/
def RemoveLabel (live : List Int) (st : MStore) (issueID lbl : String) (now : Int) :
    MStore × Option String :=
  match GetIssue st issueID with
  | .error e => (st, some e)
  | .ok none => (st, some "panic: runtime error: invalid memory address or nil pointer dereference")
  | .ok (some issue) =>
    let newLabels := issue.labels.filter (fun l => l ≠ lbl)
    if issue.labels.any (fun l => l = lbl) then
      UpdateIssue live st issueID [("labels", .vStrList newLabels)] now
    else (st, none)

/-! ## Filesystem lemmas -/

theorem Fs.read?_cons (e : String × Content) (es : Fs) (q : String) :
    Fs.read? (e :: es) q = if e.1 = q then some e.2 else Fs.read? es q := by
  unfold Fs.read?
  by_cases h : e.1 = q
  · rw [List.find?_cons_of_pos _ (by simp [h])]
    simp [h]
  · rw [List.find?_cons_of_neg _ (by simp [h])]
    simp [h]

theorem Fs.removeAll_cons (e : String × Content) (es : Fs) (p : String) :
    Fs.removeAll (e :: es) p =
      if e.1 = p then Fs.removeAll es p else e :: Fs.removeAll es p := by
  unfold Fs.removeAll
  by_cases h : e.1 = p
  · rw [List.filter_cons_of_neg (by simp [h])]; simp [h]
  · rw [List.filter_cons_of_pos (by simp [h])]; simp [h]

theorem Fs.read?_removeAll (fs : Fs) (p q : String) :
    (fs.removeAll p).read? q = if q = p then none else fs.read? q := by
  induction fs with
  | nil => simp [Fs.removeAll, Fs.read?]
  | cons e es ih =>
    rw [Fs.removeAll_cons]
    by_cases hep : e.1 = p
    · rw [if_pos hep, ih, Fs.read?_cons]
      by_cases hq : q = p
      · simp [hq]
      · rw [if_neg hq, if_neg hq, if_neg (fun h : e.1 = q => hq (by rw [← h, hep]))]
    · rw [if_neg hep, Fs.read?_cons, Fs.read?_cons, ih]
      by_cases heq : e.1 = q
      · have hq : ¬ q = p := fun h => hep (heq.trans h)
        rw [if_pos heq, if_neg hq, if_pos heq]
      · rw [if_neg heq, if_neg heq]

theorem Fs.read?_append (a b : Fs) (q : String) :
    (a ++ b : Fs).read? q = ((a.read? q).or (b.read? q)) := by
  induction a with
  | nil => simp [Fs.read?]
  | cons e es ih =>
    rw [List.cons_append, Fs.read?_cons, Fs.read?_cons]
    by_cases he : e.1 = q <;> simp [he, ih, Option.or]

theorem Fs.read?_single (p q : String) (c : Content) :
    Fs.read? [(p, c)] q = if q = p then some c else none := by
  rw [show ([(p, c)] : Fs) = (p, c) :: ([] : Fs) from rfl, Fs.read?_cons]
  by_cases h : q = p
  · simp [h]
  · rw [if_neg (fun hh : p = q => h hh.symm), if_neg h]
    simp [Fs.read?]

theorem Fs.read?_write (fs : Fs) (p q : String) (c : Content) :
    (fs.write p c).read? q = if q = p then some c else fs.read? q := by
  unfold Fs.write
  rw [Fs.read?_append, Fs.read?_removeAll, Fs.read?_single]
  by_cases h : q = p <;> cases hq : fs.read? q <;> simp [h, hq, Option.or]

theorem Fs.renameE_eq_ok {fs : Fs} {src : String} (dst : String) {c : Content}
    (h : fs.read? src = some c) :
    fs.renameE src dst = .ok ((fs.removeAll src).removeAll dst ++ [(dst, c)]) := by
  unfold Fs.renameE
  rw [h]

theorem Fs.renameE_eq_error {fs : Fs} {src : String} (dst : String)
    (h : fs.read? src = none) : fs.renameE src dst = .error "rename: no such file" := by
  unfold Fs.renameE
  rw [h]

theorem Fs.read?_rename_ok {fs fs' : Fs} {src dst : String}
    (h : fs.renameE src dst = .ok fs') (q : String) :
    fs'.read? q = if q = dst then fs.read? src
      else if q = src then none else fs.read? q := by
  unfold Fs.renameE at h
  cases hr : fs.read? src with
  | none => rw [hr] at h; cases h
  | some c =>
    rw [hr] at h
    cases h
    rw [Fs.read?_append, Fs.read?_removeAll, Fs.read?_removeAll, Fs.read?_single]
    by_cases h1 : q = dst <;> by_cases h2 : q = src <;>
      cases hq : fs.read? q <;> simp_all [Option.or]

theorem Fs.read?_renameBE (fs : Fs) (src dst q : String) :
    (fs.renameBE src dst).read? q =
      if fs.read? src = none then fs.read? q
      else if q = dst then fs.read? src
      else if q = src then none else fs.read? q := by
  unfold Fs.renameBE
  cases hr : fs.read? src with
  | none => rw [Fs.renameE_eq_error dst hr]; simp [hr]
  | some c =>
    rw [Fs.renameE_eq_ok dst hr]
    simp only
    rw [Fs.read?_rename_ok (Fs.renameE_eq_ok dst hr)]
    rw [hr]
    simp

theorem Fs.read?_removeBE (fs : Fs) (p q : String) :
    (fs.removeBE p).read? q = if q = p then none else fs.read? q :=
  Fs.read?_removeAll fs p q

/-! ## Path disequalities

The four artifact names of an issue pairwise differ: stripping the common
prefix `<id>.md` they continue with `""`, `.tmp.`, `.lock.`, `.trash.`, so
(for a fixed PID string) their lengths pairwise differ. -/

theorem String.ne_of_length_ne {a b : String} (h : a.length ≠ b.length) : a ≠ b := by
  intro hab
  exact h (by rw [hab])

/-- The lock path built by `lockFile`. -/
def lockPathFor (pid : Int) (id : String) : String :=
  getIssuePath id ++ ".lock." ++ toString pid

/-- The temp path built by `getTempPath`. -/
def tempPathFor (pid : Int) (id : String) : String :=
  getIssuePath id ++ ".tmp." ++ toString pid

/-- The trash path built by `commitFile`. -/
def trashPathFor (pid : Int) (id : String) : String :=
  getIssuePath id ++ ".trash." ++ toString pid

theorem issuePath_ne_lockPath (pid : Int) (id : String) :
    getIssuePath id ≠ lockPathFor pid id := by
  refine String.ne_of_length_ne ?_
  simp only [getIssuePath, lockPathFor, String.length_append]
  rw [show (".md").length = 3 from rfl, show (".lock.").length = 6 from rfl]
  omega

theorem issuePath_ne_tempPath (pid : Int) (id : String) :
    getIssuePath id ≠ tempPathFor pid id := by
  refine String.ne_of_length_ne ?_
  simp only [getIssuePath, tempPathFor, String.length_append]
  rw [show (".md").length = 3 from rfl, show (".tmp.").length = 5 from rfl]
  omega

theorem issuePath_ne_trashPath (pid : Int) (id : String) :
    getIssuePath id ≠ trashPathFor pid id := by
  refine String.ne_of_length_ne ?_
  simp only [getIssuePath, trashPathFor, String.length_append]
  rw [show (".md").length = 3 from rfl, show (".trash.").length = 7 from rfl]
  omega

theorem lockPath_ne_tempPath (pid : Int) (id : String) :
    lockPathFor pid id ≠ tempPathFor pid id := by
  refine String.ne_of_length_ne ?_
  simp only [lockPathFor, tempPathFor, String.length_append]
  rw [show (".lock.").length = 6 from rfl, show (".tmp.").length = 5 from rfl]
  omega

theorem lockPath_ne_trashPath (pid : Int) (id : String) :
    lockPathFor pid id ≠ trashPathFor pid id := by
  refine String.ne_of_length_ne ?_
  simp only [lockPathFor, trashPathFor, String.length_append]
  rw [show (".lock.").length = 6 from rfl, show (".trash.").length = 7 from rfl]
  omega

theorem tempPath_ne_trashPath (pid : Int) (id : String) :
    tempPathFor pid id ≠ trashPathFor pid id := by
  refine String.ne_of_length_ne ?_
  simp only [tempPathFor, trashPathFor, String.length_append]
  rw [show (".tmp.").length = 5 from rfl, show (".trash.").length = 7 from rfl]
  omega

/-! ## Success-path lemmas for the locked update cycle -/

theorem locks_filter_eq {l : List (String × String)} {id : String}
    (h : l.find? (fun e => e.1 == id) = none) :
    l.filter (fun e => e.1 ≠ id) = l := by
  apply List.filter_eq_self.mpr
  intro a ha
  have := List.find?_eq_none.mp h a ha
  simpa using this

theorem lockFile_success {live : List Int} {st : MStore} {id : String} {c : Content}
    (hheld : st.locks.find? (fun e => e.1 == id) = none)
    (hfile : st.fs.read? (getIssuePath id) = some c) :
    lockFile live st id =
      .ok ({ st with
              fs := (st.fs.removeAll (getIssuePath id)).removeAll
                      (lockPathFor st.pid id) ++ [(lockPathFor st.pid id, c)],
              locks := (id, lockPathFor st.pid id) :: st.locks },
           lockPathFor st.pid id) := by
  unfold lockFile
  rw [hheld]
  simp only
  rw [show getIssuePath id ++ ".lock." ++ toString st.pid = lockPathFor st.pid id from rfl,
      Fs.renameE_eq_ok _ hfile]

theorem commitFile_spec {st : MStore} {id : String} {cNew cL : Content}
    (htemp : st.fs.read? (tempPathFor st.pid id) = some cNew)
    (hlock : st.fs.read? (lockPathFor st.pid id) = some cL) :
    ∃ st', commitFile st id (lockPathFor st.pid id) (tempPathFor st.pid id) = .ok st' ∧
      st'.pid = st.pid ∧ st'.locks = st.locks.filter (fun e => e.1 ≠ id) ∧
      ∀ p, st'.fs.read? p =
        if p = getIssuePath id then some cNew
        else if p = lockPathFor st.pid id then none
        else if p = tempPathFor st.pid id then none
        else if p = trashPathFor st.pid id then none
        else st.fs.read? p := by
  unfold commitFile
  dsimp only
  rw [show getIssuePath id ++ ".trash." ++ toString st.pid = trashPathFor st.pid id from rfl,
      Fs.renameE_eq_ok _ htemp]
  dsimp only
  refine ⟨_, rfl, rfl, rfl, ?_⟩
  intro p
  have h3 : ∀ q, Fs.read?
      ((st.fs.removeAll (tempPathFor st.pid id)).removeAll (getIssuePath id) ++
        [(getIssuePath id, cNew)]) q =
      if q = getIssuePath id then some cNew
      else if q = tempPathFor st.pid id then none
      else st.fs.read? q := by
    intro q
    rw [Fs.read?_rename_ok (Fs.renameE_eq_ok (getIssuePath id) htemp) q]
    by_cases h : q = getIssuePath id <;> simp [h, htemp]
  rw [Fs.read?_removeBE, Fs.read?_renameBE]
  rw [h3 (lockPathFor st.pid id)]
  rw [if_neg (Ne.symm (issuePath_ne_lockPath st.pid id)),
      if_neg (lockPath_ne_tempPath st.pid id), hlock]
  simp only [reduceCtorEq, if_false]
  have n1 := issuePath_ne_lockPath st.pid id
  have n2 := issuePath_ne_tempPath st.pid id
  have n3 := issuePath_ne_trashPath st.pid id
  have n4 := lockPath_ne_tempPath st.pid id
  have n5 := lockPath_ne_trashPath st.pid id
  have n6 := tempPath_ne_trashPath st.pid id
  by_cases h1 : p = getIssuePath id <;>
    by_cases h2 : p = lockPathFor st.pid id <;>
      by_cases hq3 : p = tempPathFor st.pid id <;>
        by_cases h4 : p = trashPathFor st.pid id <;>
          simp_all [h3]

theorem UpdateIssue_success {live : List Int} {st : MStore} {id : String}
    {updates : List (String × UVal)} {now : Int} {c : Content}
    {issue0 issue1 : Issue}
    (hheld : st.locks.find? (fun e => e.1 == id) = none)
    (hfile : st.fs.read? (getIssuePath id) = some c)
    (hparse : markdownToIssue id c = .ok issue0)
    (happly : applyUpdates issue0 updates = .ok issue1) :
    (UpdateIssue live st id updates now).2 = none ∧
    (UpdateIssue live st id updates now).1.pid = st.pid ∧
    (UpdateIssue live st id updates now).1.locks = st.locks ∧
    ∀ p, (UpdateIssue live st id updates now).1.fs.read? p =
      if p = getIssuePath id then
        some (Content.issue { issue1 with updatedAt := now })
      else if p = lockPathFor st.pid id then none
      else if p = tempPathFor st.pid id then none
      else if p = trashPathFor st.pid id then none
      else st.fs.read? p := by
  unfold UpdateIssue
  rw [lockFile_success hheld hfile]
  dsimp only
  have hfs1 : ∀ q, Fs.read?
      ((st.fs.removeAll (getIssuePath id)).removeAll (lockPathFor st.pid id) ++
        [(lockPathFor st.pid id, c)]) q =
      if q = lockPathFor st.pid id then some c
      else if q = getIssuePath id then none
      else st.fs.read? q := by
    intro q
    rw [Fs.read?_rename_ok (Fs.renameE_eq_ok (lockPathFor st.pid id) hfile) q]
    by_cases h : q = lockPathFor st.pid id <;> simp [h, hfile]
  rw [hfs1 (lockPathFor st.pid id)]
  rw [if_pos rfl]
  dsimp only
  rw [hparse]
  dsimp only
  rw [happly]
  dsimp only
  rw [show getIssuePath id ++ ".tmp." ++ toString st.pid = tempPathFor st.pid id from rfl]
  set fsW := Fs.write
      ((st.fs.removeAll (getIssuePath id)).removeAll (lockPathFor st.pid id) ++
        [(lockPathFor st.pid id, c)]) (tempPathFor st.pid id)
      (issueToMarkdown { issue1 with updatedAt := now }) with hfsW
  have htemp : fsW.read? (tempPathFor st.pid id) =
      some (Content.issue { issue1 with updatedAt := now }) := by
    rw [hfsW, Fs.read?_write, if_pos rfl]; rfl
  have hlock2 : fsW.read? (lockPathFor st.pid id) = some c := by
    rw [hfsW, Fs.read?_write, if_neg (lockPath_ne_tempPath st.pid id), hfs1, if_pos rfl]
  obtain ⟨st', hcommit, hpid, hlocks, hread⟩ :=
    @commitFile_spec ⟨fsW, st.pid, (id, lockPathFor st.pid id) :: st.locks⟩ id
      (Content.issue { issue1 with updatedAt := now }) c htemp hlock2
  rw [hcommit]
  dsimp only
  refine ⟨rfl, hpid, ?_, ?_⟩
  · rw [hlocks]
    dsimp only
    rw [List.filter_cons]
    simp only [ne_eq, not_true_eq_false, decide_False, Bool.false_eq_true, if_false]
    exact locks_filter_eq hheld
  · intro p
    rw [hread p]
    dsimp only
    by_cases h1 : p = getIssuePath id
    · rw [if_pos h1, if_pos h1]
    · rw [if_neg h1, if_neg h1]
      by_cases h2 : p = lockPathFor st.pid id
      · rw [if_pos h2, if_pos h2]
      · rw [if_neg h2, if_neg h2]
        by_cases h3 : p = tempPathFor st.pid id
        · rw [if_pos h3, if_pos h3]
        · rw [if_neg h3, if_neg h3]
          by_cases h4 : p = trashPathFor st.pid id
          · rw [if_pos h4, if_pos h4]
          · rw [if_neg h4, if_neg h4]
            rw [hfsW, Fs.read?_write, if_neg h3, hfs1, if_neg h2, if_neg h1]

/-! ## C4: startup sweep on an orphan lock file -/

/-- The pre-edit issue content sitting in the orphan lock file of C4. -/
def c4Issue : Issue := { id := "a-1", title := "pre-edit" }

/-- **C4 (evaluation).**  A store opened with a single orphan lock file
`a-1.md.lock.999` whose PID 999 is dead: the startup sweep first *removes*
the lock file and only then attempts the rename back to `a-1.md`, which
silently fails on the now-missing source.  The sweep therefore ends with an
empty directory: the issue file is **not** restored and the pre-edit content
is lost, contradicting both the spec and the code's own comment ("Rename it
back to the original file"). -/
theorem c4_sweep_deletes_orphan_lock :
    cleanupStaleLocks [] [("a-1.md.lock.999", Content.issue c4Issue)] = [] ∧
      Fs.read? (cleanupStaleLocks [] [("a-1.md.lock.999", Content.issue c4Issue)])
        "a-1.md" = none := by
  constructor
  · decide
  · decide

/-! ## C8: missing ID — sentinel for reads, error for mutations -/

/-- **C8.**  For an ID with no issue file and no lock file, `GetIssue`
returns the absent-value sentinel (`ok none`, no error), while `UpdateIssue`
and `DeleteIssue` fail with the lock-timeout error and leave the state
untouched. -/
theorem c8_missing_id_sentinel_vs_error (live : List Int) (st : MStore)
    (id : String) (updates : List (String × UVal)) (now : Int)
    (hfile : st.fs.read? (getIssuePath id) = none)
    (hlocks : globStartsWith st.fs (getIssuePath id ++ ".lock.") = [])
    (hheld : st.locks.find? (fun e => e.1 == id) = none) :
    GetIssue st id = .ok none ∧
    UpdateIssue live st id updates now =
      (st, some ("failed to lock issue: timeout acquiring lock for " ++ id)) ∧
    DeleteIssue live st id =
      (st, some ("failed to lock issue: timeout acquiring lock for " ++ id)) := by
  have hlf : lockFile live st id =
      .error ("timeout acquiring lock for " ++ id) := by
    unfold lockFile
    rw [hheld]
    dsimp only
    rw [show getIssuePath id ++ ".lock." ++ toString st.pid =
          lockPathFor st.pid id from rfl]
    rw [Fs.renameE_eq_error _ hfile]
    dsimp only
    rw [hlocks]
    rfl
  refine ⟨?_, ?_, ?_⟩
  · unfold GetIssue
    dsimp only
    rw [hfile, hlocks]
    rfl
  · unfold UpdateIssue
    rw [hlf]
    rfl
  · unfold DeleteIssue
    rw [hlf]
    rfl


/-- **C8 (witness).**  The theorem applied to the empty store. -/
theorem c8_witness :
    GetIssue { fs := [], pid := 7, locks := [] } "a-1" = .ok none ∧
    UpdateIssue [7] { fs := [], pid := 7, locks := [] } "a-1" [] 0 =
      ({ fs := [], pid := 7, locks := [] },
       some ("failed to lock issue: timeout acquiring lock for " ++ "a-1")) ∧
    DeleteIssue [7] { fs := [], pid := 7, locks := [] } "a-1" =
      ({ fs := [], pid := 7, locks := [] },
       some ("failed to lock issue: timeout acquiring lock for " ++ "a-1")) :=
  c8_missing_id_sentinel_vs_error [7] { fs := [], pid := 7, locks := [] }
    "a-1" [] 0 (by decide) (by decide) (by decide)

/-! ## C9: `GetIssue` reads through a foreign lock -/

/-- **C9.**  When the issue file is renamed away by a lock holder but a
matching lock file exists, `GetIssue` reads and parses the lock file's
content, so a concurrent reader observes the pre-edit issue rather than a
not-found sentinel. -/
theorem c9_get_issue_reads_lock_file (st : MStore) (id l : String) (i : Issue)
    (hfile : st.fs.read? (getIssuePath id) = none)
    (hglob : (globStartsWith st.fs (getIssuePath id ++ ".lock.")).head? = some l)
    (hread : st.fs.read? l = some (Content.issue i)) :
    GetIssue st id =
      .ok (some { i with
        id := id,
        dependencies := i.dependencies.map (rekeyDependency id) }) := by
  unfold GetIssue
  dsimp only
  rw [hfile]
  dsimp only
  rw [hglob]
  dsimp only
  rw [hread]
  rfl

/-- **C9 (witness).**  A store holding only `a-1.md.lock.42` (an edit by live
process 42 in flight): `GetIssue` returns the pre-edit issue. -/
theorem c9_witness :
    GetIssue { fs := [("a-1.md.lock.42", Content.issue c4Issue)], pid := 7,
               locks := [] } "a-1" =
      .ok (some { c4Issue with
        id := "a-1",
        dependencies := c4Issue.dependencies.map (rekeyDependency "a-1") }) :=
  c9_get_issue_reads_lock_file _ "a-1" "a-1.md.lock.42" c4Issue
    (by decide) (by decide) (by decide)


/-! ## C5: DeleteIssue and dependency records -/

/-- C5 store, issue without dependencies. -/
def c5IssueA : Issue := { id := "a-1" }

/-- C5 store, issue holding an inbound edge to `a-1`. -/
def c5IssueB : Issue :=
  { id := "a-2", dependencies := [⟨"a-2", "a-1", "blocks"⟩] }

/-- C5 store: two issues, `a-2` depends on `a-1`. -/
def c5Store : MStore :=
  { fs := [("a-1.md", .issue c5IssueA), ("a-2.md", .issue c5IssueB)],
    pid := 7, locks := [] }

/-- **C5 (counterexample).**  `DeleteIssue("a-1")` succeeds, yet the
dependency record `(a-2, a-1, blocks)` — an inbound edge whose target is the
deleted issue — remains in the store, stored unchanged inside `a-2.md`. -/
theorem c5_counterexample :
    (DeleteIssue [7] c5Store "a-1").2 = none ∧
    (DeleteIssue [7] c5Store "a-1").1.fs.read? "a-2.md" =
      some (Content.issue c5IssueB) ∧
    c5IssueB.dependencies =
      [{ issueID := "a-2", dependsOnID := "a-1", dtype := "blocks" }] := by
  refine ⟨by decide, by decide, rfl⟩

/-- **C5 (amended).**  `DeleteIssue(id)` removes exactly the issue's own file
— and with it every dependency record stored at the deleted issue, i.e. all
outbound edges — while every other file, in particular any file holding
inbound edges referencing `id`, is untouched. -/
theorem c5_delete_removes_only_the_issue_file (live : List Int) (st : MStore)
    (id : String) (c : Content)
    (hheld : st.locks.find? (fun e => e.1 == id) = none)
    (hfile : st.fs.read? (getIssuePath id) = some c) :
    (DeleteIssue live st id).2 = none ∧
    (DeleteIssue live st id).1.fs.read? (getIssuePath id) = none ∧
    ∀ p, p ≠ getIssuePath id → p ≠ lockPathFor st.pid id →
      (DeleteIssue live st id).1.fs.read? p = st.fs.read? p := by
  unfold DeleteIssue
  rw [lockFile_success hheld hfile]
  dsimp only
  have hfs1 : ∀ q, Fs.read?
      ((st.fs.removeAll (getIssuePath id)).removeAll (lockPathFor st.pid id) ++
        [(lockPathFor st.pid id, c)]) q =
      if q = lockPathFor st.pid id then some c
      else if q = getIssuePath id then none
      else st.fs.read? q := by
    intro q
    rw [Fs.read?_rename_ok (Fs.renameE_eq_ok (lockPathFor st.pid id) hfile) q]
    by_cases h : q = lockPathFor st.pid id <;> simp [h, hfile]
  unfold Fs.removeE
  rw [hfs1 (lockPathFor st.pid id), if_pos rfl]
  dsimp only
  refine ⟨rfl, ?_, ?_⟩
  · rw [Fs.read?_removeAll,
        if_neg (issuePath_ne_lockPath st.pid id), hfs1,
        if_neg (issuePath_ne_lockPath st.pid id), if_pos rfl]
  · intro p hip hlp
    rw [Fs.read?_removeAll, if_neg hlp, hfs1, if_neg hlp, if_neg hip]

/-- **C5 (witness).**  The amended theorem applied to the concrete store:
after deleting `a-1`, the file `a-2.md` — and the inbound record it holds —
is exactly as before. -/
theorem c5_witness :
    (DeleteIssue [7] c5Store "a-1").2 = none ∧
    (DeleteIssue [7] c5Store "a-1").1.fs.read? (getIssuePath "a-1") = none ∧
    (DeleteIssue [7] c5Store "a-1").1.fs.read? "a-2.md" =
      c5Store.fs.read? "a-2.md" := by
  obtain ⟨h1, h2, h3⟩ :=
    c5_delete_removes_only_the_issue_file [7] c5Store "a-1" (.issue c5IssueA)
      (by decide) (by decide)
  exact ⟨h1, h2, h3 "a-2.md" (by decide) (by decide)⟩

/-! ## C6: the `closed_at ⇔ closed` coupling -/

/-- C6: an open issue with no `closed_at`. -/
def c6OpenIssue : Issue := { id := "a-1", status := "open", closedAt := none }

/-- C6: a closed issue with `closed_at` set. -/
def c6ClosedIssue : Issue :=
  { id := "a-2", status := "closed", closedAt := some 5 }

/-- C6 store with one open and one closed issue. -/
def c6Store : MStore :=
  { fs := [("a-1.md", .issue c6OpenIssue), ("a-2.md", .issue c6ClosedIssue)],
    pid := 7, locks := [] }

/-- **C6 (counterexample).**  `UpdateIssue` applies exactly the supplied
keys: updating `status` to `closed` leaves `closed_at` unset, and updating
`status` of a closed issue to `open` (reopening) leaves `closed_at` set —
both final states violate the claimed `closed_at ⇔ closed` invariant. -/
theorem c6_counterexample :
    (UpdateIssue [7] c6Store "a-1" [("status", UVal.vStatus "closed")] 99).2 = none ∧
    (UpdateIssue [7] c6Store "a-1" [("status", UVal.vStatus "closed")] 99).1.fs.read?
        "a-1.md" =
      some (Content.issue { c6OpenIssue with status := "closed", updatedAt := 99 }) ∧
    ({ c6OpenIssue with status := "closed", updatedAt := 99 } : Issue).closedAt
      = none ∧
    (UpdateIssue [7] c6Store "a-2" [("status", UVal.vStatus "open")] 99).2 = none ∧
    (UpdateIssue [7] c6Store "a-2" [("status", UVal.vStatus "open")] 99).1.fs.read?
        "a-2.md" =
      some (Content.issue { c6ClosedIssue with status := "open", updatedAt := 99 }) ∧
    ({ c6ClosedIssue with status := "open", updatedAt := 99 } : Issue).closedAt
      = some 5 := by
  refine ⟨by decide, by decide, rfl, by decide, by decide, rfl⟩

/-- **C6 (amended).**  `CloseIssue` maintains the coupling by passing
`closed_at` explicitly: it stores the issue with `status = closed`,
`closed_at = now` and `updated_at = now`.  (`UpdateIssue` itself applies only
the supplied keys; a bare status change does not set or clear `closed_at` —
callers must pass `closed_at` alongside, as `CloseIssue` does.) -/
theorem c6_close_issue_couples_closed_at (live : List Int) (st : MStore)
    (id : String) (now : Int) (i : Issue)
    (hheld : st.locks.find? (fun e => e.1 == id) = none)
    (hfile : st.fs.read? (getIssuePath id) = some (Content.issue i)) :
    (CloseIssue live st id now).2 = none ∧
    (CloseIssue live st id now).1.fs.read? (getIssuePath id) =
      some (Content.issue { i with
        id := id,
        dependencies := i.dependencies.map (rekeyDependency id),
        status := "closed", closedAt := some now, updatedAt := now }) := by
  have hparse : markdownToIssue id (Content.issue i) =
      .ok { i with id := id,
                   dependencies := i.dependencies.map (rekeyDependency id) } := rfl
  have happly : applyUpdates
      { i with id := id, dependencies := i.dependencies.map (rekeyDependency id) }
      [("status", UVal.vStatus "closed"), ("closed_at", UVal.vTime now),
       ("updated_at", UVal.vTime now)] =
      .ok { i with
        id := id,
        dependencies := i.dependencies.map (rekeyDependency id),
        status := "closed", closedAt := some now, updatedAt := now } := rfl
  obtain ⟨herr, _, _, hread⟩ := UpdateIssue_success hheld hfile hparse happly
  unfold CloseIssue
  refine ⟨herr, ?_⟩
  rw [hread (getIssuePath id), if_pos rfl]

/-- **C6 (witness).**  Closing the open issue of the C6 store stores it with
`status = closed` and `closed_at = 99`. -/
theorem c6_witness :
    (CloseIssue [7] c6Store "a-1" 99).2 = none ∧
    (CloseIssue [7] c6Store "a-1" 99).1.fs.read? (getIssuePath "a-1") =
      some (Content.issue { c6OpenIssue with
        id := "a-1",
        dependencies := c6OpenIssue.dependencies.map (rekeyDependency "a-1"),
        status := "closed", closedAt := some 99, updatedAt := 99 }) :=
  c6_close_issue_couples_closed_at [7] c6Store "a-1" 99 c6OpenIssue
    (by decide) (by decide)

/-! ## C7: unknown update keys -/

theorem applyUpdate1_unknown {key : String} (hk : key ∉ recognizedKeys)
    (issue : Issue) (v : UVal) :
    applyUpdate1 issue key v = .error ("unknown field for update: " ++ key) := by
  simp only [recognizedKeys, List.mem_cons, List.not_mem_nil, or_false,
    not_or] at hk
  obtain ⟨h1, h2, h3, h4, h5, h6, h7, h8, h9, h10, h11, h12, h13⟩ := hk
  unfold applyUpdate1
  rw [if_neg h1, if_neg h2, if_neg h3, if_neg h4, if_neg h5, if_neg h6,
      if_neg h7, if_neg h8, if_neg h9, if_neg h10, if_neg h11, if_neg h12,
      if_neg h13]

theorem applyUpdates_unknown_key {updates : List (String × UVal)}
    (hk : ∃ kv ∈ updates, kv.1 ∉ recognizedKeys) (issue : Issue) :
    ∃ e, applyUpdates issue updates = .error e := by
  induction updates generalizing issue with
  | nil =>
    obtain ⟨kv, h, _⟩ := hk
    cases h
  | cons kv rest ih =>
    obtain ⟨k, v⟩ := kv
    obtain ⟨kv', hmem, hunk⟩ := hk
    unfold applyUpdates
    rcases List.mem_cons.mp hmem with rfl | hmem'
    · rw [applyUpdate1_unknown hunk]
      exact ⟨_, rfl⟩
    · cases h1 : applyUpdate1 issue k v with
      | error e => exact ⟨e, rfl⟩
      | ok issue' =>
        obtain ⟨e, he⟩ := ih ⟨kv', hmem', hunk⟩ issue'
        exact ⟨e, he⟩

/-- **C7.**  For a stored, well-formed issue and a field map containing any
key outside the recognized set, `UpdateIssue` returns a (validation) error
and the whole directory is unchanged — in particular the issue file is byte
identical and `updated_at` has not advanced. -/
theorem c7_unknown_key_is_rejected (live : List Int) (st : MStore) (id : String)
    (updates : List (String × UVal)) (now : Int) (i : Issue)
    (hheld : st.locks.find? (fun e => e.1 == id) = none)
    (hfile : st.fs.read? (getIssuePath id) = some (Content.issue i))
    (hlp : st.fs.read? (lockPathFor st.pid id) = none)
    (hkey : ∃ kv ∈ updates, kv.1 ∉ recognizedKeys) :
    (UpdateIssue live st id updates now).2.isSome = true ∧
    ∀ p, (UpdateIssue live st id updates now).1.fs.read? p = st.fs.read? p := by
  unfold UpdateIssue
  rw [lockFile_success hheld hfile]
  dsimp only
  have hfs1 : ∀ q, Fs.read?
      ((st.fs.removeAll (getIssuePath id)).removeAll (lockPathFor st.pid id) ++
        [(lockPathFor st.pid id, Content.issue i)]) q =
      if q = lockPathFor st.pid id then some (Content.issue i)
      else if q = getIssuePath id then none
      else st.fs.read? q := by
    intro q
    rw [Fs.read?_rename_ok (Fs.renameE_eq_ok (lockPathFor st.pid id) hfile) q]
    by_cases h : q = lockPathFor st.pid id <;> simp [h, hfile]
  rw [hfs1 (lockPathFor st.pid id), if_pos rfl]
  dsimp only
  rw [show markdownToIssue id (Content.issue i) =
        .ok { i with id := id,
                     dependencies := i.dependencies.map (rekeyDependency id) }
      from rfl]
  dsimp only
  obtain ⟨e, he⟩ := applyUpdates_unknown_key hkey
    { i with id := id, dependencies := i.dependencies.map (rekeyDependency id) }
  rw [he]
  dsimp only
  unfold unlockFile
  have hlpread : Fs.read?
      ((st.fs.removeAll (getIssuePath id)).removeAll (lockPathFor st.pid id) ++
        [(lockPathFor st.pid id, Content.issue i)]) (lockPathFor st.pid id) =
      some (Content.issue i) := by
    rw [hfs1]
    simp
  rw [Fs.renameE_eq_ok (getIssuePath id) hlpread]
  dsimp only
  refine ⟨rfl, ?_⟩
  intro p
  rw [Fs.read?_rename_ok (Fs.renameE_eq_ok (getIssuePath id) hlpread) p]
  by_cases h1 : p = getIssuePath id
  · rw [if_pos h1, h1, hfile]
    exact hlpread
  · rw [if_neg h1]
    by_cases h2 : p = lockPathFor st.pid id
    · rw [if_pos h2, h2, hlp]
    · rw [if_neg h2, hfs1, if_neg h2, if_neg h1]

/-- **C7 (witness).**  Updating the C6 store's open issue with the unknown
key `bogus` errors and leaves every file unchanged. -/
theorem c7_witness :
    (UpdateIssue [7] c6Store "a-1" [("bogus", UVal.vStr "x")] 99).2.isSome = true ∧
    (UpdateIssue [7] c6Store "a-1" [("bogus", UVal.vStr "x")] 99).1.fs.read?
        "a-1.md" = c6Store.fs.read? "a-1.md" := by
  obtain ⟨h1, h2⟩ :=
    c7_unknown_key_is_rejected [7] c6Store "a-1" [("bogus", UVal.vStr "x")] 99
      c6OpenIssue (by decide) (by decide) (by decide)
      ⟨("bogus", UVal.vStr "x"), by decide, by decide⟩
  exact ⟨h1, h2 "a-1.md"⟩

/-! ## C10: idempotence of AddLabel / RemoveLabel -/

theorem rekey_map_idem (id : String) (l : List Dependency) :
    (l.map (rekeyDependency id)).map (rekeyDependency id) =
      l.map (rekeyDependency id) := by
  rw [List.map_map]
  exact List.map_congr_left (fun d _ => rfl)

/-- **C10.**  On a well-formed stored issue: (1) `AddLabel` with a label the
issue already has, and (2) `RemoveLabel` with a label it does not have, both
return success with the state — every file, every field, `updated_at`
included — literally unchanged; and (3)–(4) running `AddLabel` (resp.
`RemoveLabel`) a second time, at any later clock, returns success and changes
nothing, so two applications have the same effect on the store as one. -/
theorem c10_label_idempotence (live : List Int) (st : MStore)
    (id lbl : String) (now now2 : Int) (i : Issue)
    (hheld : st.locks.find? (fun e => e.1 == id) = none)
    (hfile : st.fs.read? (getIssuePath id) = some (Content.issue i)) :
    (lbl ∈ i.labels → AddLabel live st id lbl now = (st, none)) ∧
    (lbl ∉ i.labels → RemoveLabel live st id lbl now = (st, none)) ∧
    ((AddLabel live st id lbl now).2 = none ∧
      AddLabel live (AddLabel live st id lbl now).1 id lbl now2 =
        ((AddLabel live st id lbl now).1, none)) ∧
    ((RemoveLabel live st id lbl now).2 = none ∧
      RemoveLabel live (RemoveLabel live st id lbl now).1 id lbl now2 =
        ((RemoveLabel live st id lbl now).1, none)) := by
  have hget : GetIssue st id =
      .ok (some { i with
        id := id,
        dependencies := i.dependencies.map (rekeyDependency id) }) := by
    unfold GetIssue
    dsimp only
    rw [hfile]
    rfl
  have hparse : markdownToIssue id (Content.issue i) =
      .ok { i with
        id := id,
        dependencies := i.dependencies.map (rekeyDependency id) } := rfl
  have part1 : ∀ t : Int, lbl ∈ i.labels →
      AddLabel live st id lbl t = (st, none) := by
    intro t hmem
    unfold AddLabel
    rw [hget]
    dsimp only
    rw [if_pos hmem]
  have part2 : ∀ t : Int, lbl ∉ i.labels →
      RemoveLabel live st id lbl t = (st, none) := by
    intro t hmem
    unfold RemoveLabel
    rw [hget]
    dsimp only
    rw [if_neg (by simpa using hmem)]
  refine ⟨part1 now, part2 now, ?_, ?_⟩
  · by_cases hmem : lbl ∈ i.labels
    · rw [part1 now hmem]
      exact ⟨rfl, part1 now2 hmem⟩
    · have happly : applyUpdates
          { i with id := id,
                   dependencies := i.dependencies.map (rekeyDependency id) }
          [("labels", UVal.vStrList (i.labels ++ [lbl]))] =
          .ok { i with
            id := id,
            dependencies := i.dependencies.map (rekeyDependency id),
            labels := i.labels ++ [lbl] } := rfl
      have hfirst : AddLabel live st id lbl now =
          UpdateIssue live st id
            [("labels", UVal.vStrList (i.labels ++ [lbl]))] now := by
        unfold AddLabel
        rw [hget]
        dsimp only
        rw [if_neg hmem]
      obtain ⟨h2none, hpid, hlocks, hread⟩ :=
        UpdateIssue_success hheld hfile hparse happly
      have hr1read : (UpdateIssue live st id
          [("labels", UVal.vStrList (i.labels ++ [lbl]))] now).1.fs.read?
            (getIssuePath id) =
          some (Content.issue { i with
            id := id,
            dependencies := i.dependencies.map (rekeyDependency id),
            labels := i.labels ++ [lbl], updatedAt := now }) := by
        rw [hread (getIssuePath id), if_pos rfl]
      have hget2 : GetIssue (UpdateIssue live st id
          [("labels", UVal.vStrList (i.labels ++ [lbl]))] now).1 id =
          .ok (some { i with
            id := id,
            dependencies := i.dependencies.map (rekeyDependency id),
            labels := i.labels ++ [lbl], updatedAt := now }) := by
        unfold GetIssue
        dsimp only
        rw [hr1read]
        unfold markdownToIssue
        dsimp only
        rw [rekey_map_idem]
      rw [hfirst]
      refine ⟨h2none, ?_⟩
      unfold AddLabel
      rw [hget2]
      dsimp only
      rw [if_pos (show lbl ∈ i.labels ++ [lbl] by simp)]
  · by_cases hmem : lbl ∈ i.labels
    · have happly : applyUpdates
          { i with id := id,
                   dependencies := i.dependencies.map (rekeyDependency id) }
          [("labels", UVal.vStrList (i.labels.filter (fun l => l ≠ lbl)))] =
          .ok { i with
            id := id,
            dependencies := i.dependencies.map (rekeyDependency id),
            labels := i.labels.filter (fun l => l ≠ lbl) } := rfl
      have hfirst : RemoveLabel live st id lbl now =
          UpdateIssue live st id
            [("labels", UVal.vStrList (i.labels.filter (fun l => l ≠ lbl)))] now := by
        unfold RemoveLabel
        rw [hget]
        dsimp only
        rw [if_pos (by simpa using hmem)]
      obtain ⟨h2none, hpid, hlocks, hread⟩ :=
        UpdateIssue_success hheld hfile hparse happly
      have hr1read : (UpdateIssue live st id
          [("labels", UVal.vStrList (i.labels.filter (fun l => l ≠ lbl)))] now).1.fs.read?
            (getIssuePath id) =
          some (Content.issue { i with
            id := id,
            dependencies := i.dependencies.map (rekeyDependency id),
            labels := i.labels.filter (fun l => l ≠ lbl), updatedAt := now }) := by
        rw [hread (getIssuePath id), if_pos rfl]
      have hget2 : GetIssue (UpdateIssue live st id
          [("labels", UVal.vStrList (i.labels.filter (fun l => l ≠ lbl)))] now).1 id =
          .ok (some { i with
            id := id,
            dependencies := i.dependencies.map (rekeyDependency id),
            labels := i.labels.filter (fun l => l ≠ lbl), updatedAt := now }) := by
        unfold GetIssue
        dsimp only
        rw [hr1read]
        unfold markdownToIssue
        dsimp only
        rw [rekey_map_idem]
      rw [hfirst]
      refine ⟨h2none, ?_⟩
      unfold RemoveLabel
      rw [hget2]
      dsimp only
      rw [if_neg (show ¬ ((i.labels.filter (fun l => l ≠ lbl)).any
            (fun l => l = lbl) = true) by
        simp [List.any_eq_true, List.mem_filter])]
    · rw [part2 now hmem]
      exact ⟨rfl, part2 now2 hmem⟩

/-- C10 witness issue, carrying the label `x`. -/
def c10Issue : Issue := { id := "a-1", labels := ["x"] }

/-- C10 witness store. -/
def c10Store : MStore :=
  { fs := [("a-1.md", .issue c10Issue)], pid := 7, locks := [] }

/-- **C10 (witness).**  On the concrete store: adding the already-present
label `x` is a strict no-op, and adding the fresh label `y` twice equals
adding it once. -/
theorem c10_witness :
    AddLabel [7] c10Store "a-1" "x" 5 = (c10Store, none) ∧
    AddLabel [7] (AddLabel [7] c10Store "a-1" "y" 5).1 "a-1" "y" 6 =
      ((AddLabel [7] c10Store "a-1" "y" 5).1, none) := by
  obtain ⟨p1, _, _, _⟩ :=
    c10_label_idempotence [7] c10Store "a-1" "x" 5 6 c10Issue
      (by decide) (by decide)
  obtain ⟨_, _, q3, _⟩ :=
    c10_label_idempotence [7] c10Store "a-1" "y" 5 6 c10Issue
      (by decide) (by decide)
  exact ⟨p1 (by decide), q3.2⟩

/-! ## C2: GetReadyWork (stubs.go)

`GetReadyWork` is a pure function of the list of issues that `ListIssues`
returns (the parsed issues in directory order); it is embedded as such.
`types.WorkFilter.SortPolicy` is accepted but ignored by this implementation
(the sort is always priority-then-created_at), so it is not modelled. -/

/-- `types.IssueFilter` (the fields `matchesFilter` consults). -/
structure IssueFilter where
  status : Option String := none
  issueType : Option String := none
  priority : Option Int := none
  assignee : Option String := none
  labels : List String := []
  labelsAny : List String := []
  ids : List String := []
  titleSearch : String := ""
deriving Repr, DecidableEq

/-- `strings.ToLower` (ASCII case folding suffices here). -/
def goToLower (s : String) : String := String.mk (s.toList.map Char.toLower)

/-- `matchesFilter` (update.go). -/
def matchesFilter (issue : Issue) (f : IssueFilter) : Bool :=
  if f.status.any (fun s => issue.status ≠ s) then false
  else if f.issueType.any (fun t => issue.issueType ≠ t) then false
  else if f.priority.any (fun p => issue.priority ≠ p) then false
  else if f.assignee.any (fun a => issue.assignee ≠ a) then false
  else if !(f.labels.all (fun fl => issue.labels.any (fun il => il = fl))) then
    false
  else if f.labelsAny ≠ [] &&
      !(f.labelsAny.any (fun fl => issue.labels.any (fun il => il = fl))) then
    false
  else if f.ids ≠ [] && !(f.ids.any (fun i2 => issue.id = i2)) then false
  else if f.titleSearch ≠ "" &&
      !(goContains (goToLower issue.title) (goToLower f.titleSearch)) then
    false
  else true

/-- `types.WorkFilter` (the fields `GetReadyWork` consults). -/
structure WorkFilter where
  status : String := ""
  priority : Option Int := none
  assignee : Option String := none
  limit : Int := 0
deriving Repr, DecidableEq

/-- The blocking statuses {open, in_progress, blocked}. -/
def isActiveStatus (s : String) : Bool :=
  s = "open" || s = "in_progress" || s = "blocked"

/-- The default candidate statuses {open, in_progress}. -/
def isCandidateStatus (i : Issue) : Bool :=
  i.status = "open" || i.status = "in_progress"

/-- A Go `map[string]*types.Issue` built by inserting a list in order: the
last insertion for a key wins. -/
def mapFind? (issues : List Issue) (id : String) : Option Issue :=
  issues.reverse.find? (fun i => i.id == id)

/-- `blockedSet[x] = true` on a set modelled as a duplicate-free list. -/
def addId (l : List String) (x : String) : List String :=
  if x ∈ l then l else x :: l

/-- Whether a candidate has a `blocks` dependency on an issue that exists in
the issue map with an active status (the direct-blocking test). -/
def directCond (src : List Issue) (i : Issue) : Bool :=
  i.dependencies.any (fun d =>
    d.dtype = "blocks" &&
      (match mapFind? src d.dependsOnID with
       | some b => isActiveStatus b.status
       | none => false))

/-- The first pass of `GetReadyWork`: mark every candidate with a `blocks`
edge to an active mapped issue. -/
def directBlockedPass (src candidates : List Issue) : List String :=
  candidates.foldl
    (fun acc i => if directCond src i then addId acc i.id else acc) []

/-- Whether a candidate has a `parent-child` dependency on a currently
blocked id. -/
def parentCond (blocked : List String) (i : Issue) : Bool :=
  i.dependencies.any (fun d =>
    d.dtype = "parent-child" && decide (d.dependsOnID ∈ blocked))

/-- The body of the transitive-blocking loop: skip already-blocked
candidates, block a candidate whose `parent-child` target is blocked and
record the change. -/
def sweepStep (acc : List String × Bool) (i : Issue) : List String × Bool :=
  if i.id ∈ acc.1 then acc
  else if parentCond acc.1 i then (addId acc.1 i.id, true)
  else acc

/-- One full pass of the transitive-blocking loop; the flag records whether
this pass added anything (`changed`). -/
def sweepOnce (candidates : List Issue) (b0 : List String) :
    List String × Bool :=
  candidates.foldl sweepStep (b0, false)

/-- `for changed { changed = false; ... }`: repeat passes until one adds
nothing.  Each changing pass adds at least one candidate id, so fuel
`candidates.length + 1` always reaches the fixpoint. -/
def sweepLoop (candidates : List Issue) : Nat → List String → List String
  | 0, b => b
  | fuel + 1, b =>
    let r := sweepOnce candidates b
    if r.2 then sweepLoop candidates fuel r.1 else r.1

/-- The comparison of the selection-style sort: higher priority (larger
number), or equal priority and later `created_at`, sinks. -/
def shouldSwapReady (a b : Issue) : Bool :=
  a.priority > b.priority ||
    (a.priority == b.priority && a.createdAt > b.createdAt)

/-- `ready[i], ready[j] = ready[j], ready[i]` on a list. -/
def listSwap (l : List Issue) (i j : Nat) : List Issue :=
  match l[i]?, l[j]? with
  | some x, some y => (l.set i y).set j x
  | _, _ => l

/-- The inner `for j := i+1; j < len(ready); j++` loop. -/
def innerSortLoop (i : Nat) : Nat → Nat → List Issue → List Issue
  | _, 0, l => l
  | j, fuel + 1, l =>
    if j < l.length then
      let l' :=
        if match l[i]?, l[j]? with
           | some a, some b => shouldSwapReady a b
           | _, _ => false
        then listSwap l i j else l
      innerSortLoop i (j + 1) fuel l'
    else l

/-- The outer `for i := 0; i < len(ready); i++` loop. -/
def outerSortLoop : Nat → Nat → List Issue → List Issue
  | _, 0, l => l
  | i, fuel + 1, l =>
    if i < l.length then
      outerSortLoop (i + 1) fuel (innerSortLoop i (i + 1) l.length l)
    else l

/-- The in-place double-loop sort of `GetReadyWork`. -/
def sortReady (l : List Issue) : List Issue := outerSortLoop 0 l.length l

/-- `GetReadyWork` (stubs.go), as a function of the `ListIssues` result. -/
def GetReadyWork (all : List Issue) (f : WorkFilter) : List Issue :=
  let statusFilter : IssueFilter :=
    { status := if f.status = "" then none else some f.status,
      priority := f.priority, assignee := f.assignee }
  let allIssues := all.filter (fun i => matchesFilter i statusFilter)
  let candidates :=
    if f.status = "" then allIssues.filter isCandidateStatus
    else allIssues
  let direct := directBlockedPass allIssues candidates
  let blockedFinal := sweepLoop candidates (candidates.length + 1) direct
  let ready := candidates.filter (fun i => !decide (i.id ∈ blockedFinal))
  let sorted := sortReady ready
  if f.limit > 0 && decide ((sorted.length : Int) > f.limit) then
    sorted.take f.limit.toNat
  else sorted

/-! ### C2 lemmas: the sort is a permutation; fold characterizations -/

theorem cons_set_perm (x y : Issue) :
    ∀ (l : List Issue) (k : Nat), l[k]? = some y →
      List.Perm (x :: l) (y :: l.set k x) := by
  intro l
  induction l with
  | nil => intro k h; simp at h
  | cons z t ih =>
    intro k h
    cases k with
    | zero =>
      simp only [List.getElem?_cons_zero, Option.some.injEq] at h
      subst h
      simp only [List.set_cons_zero]
      exact List.Perm.swap z x t
    | succ k =>
      simp only [List.getElem?_cons_succ] at h
      simp only [List.set_cons_succ]
      have h1 := List.Perm.swap z x t
      have h3 := (ih k h).cons z
      have h4 := List.Perm.swap y z (t.set k x)
      exact h1.trans (h3.trans h4)

theorem listSwap_perm : ∀ (l : List Issue) (i j : Nat),
    List.Perm (listSwap l i j) l := by
  intro l
  induction l with
  | nil => intro i j; unfold listSwap; simp
  | cons a t ih =>
    intro i j
    unfold listSwap
    cases i with
    | zero =>
      cases j with
      | zero =>
        simp only [List.getElem?_cons_zero]
        simp only [List.set_cons_zero]
        exact List.Perm.refl _
      | succ k =>
        simp only [List.getElem?_cons_zero, List.getElem?_cons_succ]
        cases hk : t[k]? with
        | none => exact List.Perm.refl _
        | some y =>
          simp only [List.set_cons_zero, List.set_cons_succ]
          exact (cons_set_perm a y t k hk).symm
    | succ k =>
      cases j with
      | zero =>
        simp only [List.getElem?_cons_zero, List.getElem?_cons_succ]
        cases hk : t[k]? with
        | none => exact List.Perm.refl _
        | some x =>
          simp only [List.set_cons_succ, List.set_cons_zero]
          exact (cons_set_perm a x t k hk).symm
      | succ m =>
        simp only [List.getElem?_cons_succ]
        cases hk : t[k]? with
        | none => exact List.Perm.refl _
        | some x =>
          cases hm : t[m]? with
          | none => exact List.Perm.refl _
          | some y =>
            simp only [List.set_cons_succ]
            have h5 := ih k m
            unfold listSwap at h5
            rw [hk, hm] at h5
            exact h5.cons a

theorem innerSortLoop_perm (i : Nat) : ∀ (fuel j : Nat) (l : List Issue),
    List.Perm (innerSortLoop i j fuel l) l := by
  intro fuel
  induction fuel with
  | zero => intro j l; exact List.Perm.refl _
  | succ n ih =>
    intro j l
    unfold innerSortLoop
    by_cases h : j < l.length
    · rw [if_pos h]
      dsimp only
      split
      · exact (ih (j + 1) _).trans (listSwap_perm l i j)
      · exact ih (j + 1) l
    · rw [if_neg h]

theorem outerSortLoop_perm : ∀ (fuel i : Nat) (l : List Issue),
    List.Perm (outerSortLoop i fuel l) l := by
  intro fuel
  induction fuel with
  | zero => intro i l; exact List.Perm.refl _
  | succ n ih =>
    intro i l
    unfold outerSortLoop
    by_cases h : i < l.length
    · rw [if_pos h]
      exact (ih (i + 1) _).trans (innerSortLoop_perm i l.length (i + 1) l)
    · rw [if_neg h]

theorem mem_sortReady {x : Issue} {l : List Issue} :
    x ∈ sortReady l ↔ x ∈ l :=
  (outerSortLoop_perm l.length 0 l).mem_iff

theorem mem_addId {l : List String} {x y : String} :
    x ∈ addId l y ↔ x = y ∨ x ∈ l := by
  unfold addId
  split
  · constructor
    · exact Or.inr
    · rintro (rfl | hx) <;> assumption
  · simp [List.mem_cons]

theorem mem_directBlockedPass {src cands : List Issue} {x : String} :
    x ∈ directBlockedPass src cands ↔
      ∃ i ∈ cands, i.id = x ∧ directCond src i = true := by
  unfold directBlockedPass
  suffices h : ∀ acc : List String,
      (x ∈ cands.foldl
        (fun acc i => if directCond src i then addId acc i.id else acc) acc ↔
       x ∈ acc ∨ ∃ i ∈ cands, i.id = x ∧ directCond src i = true) by
    simpa using h []
  induction cands with
  | nil => intro acc; simp
  | cons i rest ih =>
    intro acc
    rw [List.foldl_cons]
    by_cases hd : directCond src i = true
    · rw [if_pos hd, ih]
      simp only [mem_addId, List.mem_cons]
      constructor
      · rintro ((rfl | hx) | ⟨i2, hi2, rfl, hc⟩)
        · exact Or.inr ⟨i, Or.inl rfl, rfl, hd⟩
        · exact Or.inl hx
        · exact Or.inr ⟨i2, Or.inr hi2, rfl, hc⟩
      · rintro (hx | ⟨i2, (rfl | hi2), rfl, hc⟩)
        · exact Or.inl (Or.inr hx)
        · exact Or.inl (Or.inl rfl)
        · exact Or.inr ⟨i2, hi2, rfl, hc⟩
    · rw [if_neg hd, ih]
      simp only [List.mem_cons]
      constructor
      · rintro (hx | ⟨i2, hi2, rfl, hc⟩)
        · exact Or.inl hx
        · exact Or.inr ⟨i2, Or.inr hi2, rfl, hc⟩
      · rintro (hx | ⟨i2, (rfl | hi2), rfl, hc⟩)
        · exact Or.inl hx
        · exact absurd hc hd
        · exact Or.inr ⟨i2, hi2, rfl, hc⟩

theorem parentCond_iff {blocked : List String} {i : Issue} :
    parentCond blocked i = true ↔
      ∃ d ∈ i.dependencies, d.dtype = "parent-child" ∧
        d.dependsOnID ∈ blocked := by
  unfold parentCond
  rw [List.any_eq_true]
  constructor
  · rintro ⟨d, hd, hp⟩
    simp only [Bool.and_eq_true, decide_eq_true_eq] at hp
    exact ⟨d, hd, hp.1, hp.2⟩
  · rintro ⟨d, hd, h1, h2⟩
    exact ⟨d, hd, by simp [h1, h2]⟩



theorem inj_ids {issues : List Issue} (hnd : (issues.map Issue.id).Nodup)
    {a b : Issue} (ha : a ∈ issues) (hb : b ∈ issues) (h : a.id = b.id) :
    a = b :=
  List.inj_on_of_nodup_map hnd ha hb h

theorem mapFind?_some {issues : List Issue} {id : String} {b : Issue}
    (h : mapFind? issues id = some b) : b ∈ issues ∧ b.id = id := by
  unfold mapFind? at h
  have h1 := List.find?_some h
  have h2 := List.mem_of_find?_eq_some h
  exact ⟨List.mem_reverse.mp h2, by simpa using h1⟩

theorem mapFind?_isSome {issues : List Issue} {id : String}
    (h : ∃ b ∈ issues, b.id = id) : ∃ b, mapFind? issues id = some b := by
  unfold mapFind?
  obtain ⟨b, hb, hid⟩ := h
  have hs : (issues.reverse.find? (fun i => i.id == id)).isSome := by
    rw [List.find?_isSome]
    exact ⟨b, List.mem_reverse.mpr hb, by simpa using hid⟩
  obtain ⟨b2, hb2⟩ := Option.isSome_iff_exists.mp hs
  exact ⟨b2, hb2⟩

theorem directCond_iff {src : List Issue} (hnd : (src.map Issue.id).Nodup)
    (i : Issue) :
    directCond src i = true ↔
      ∃ d ∈ i.dependencies, d.dtype = "blocks" ∧
        ∃ b ∈ src, b.id = d.dependsOnID ∧ isActiveStatus b.status = true := by
  unfold directCond
  rw [List.any_eq_true]
  constructor
  · rintro ⟨d, hd, hp⟩
    simp only [Bool.and_eq_true, decide_eq_true_eq] at hp
    obtain ⟨h1, h2⟩ := hp
    cases hf : mapFind? src d.dependsOnID with
    | none => rw [hf] at h2; cases h2
    | some b =>
      rw [hf] at h2
      obtain ⟨hb, hbid⟩ := mapFind?_some hf
      exact ⟨d, hd, h1, b, hb, hbid, h2⟩
  · rintro ⟨d, hd, h1, b, hb, hbid, hact⟩
    refine ⟨d, hd, ?_⟩
    obtain ⟨b2, hf⟩ := mapFind?_isSome ⟨b, hb, hbid⟩
    obtain ⟨hb2, hb2id⟩ := mapFind?_some hf
    have hbb : b2 = b := inj_ids hnd hb2 hb (by rw [hb2id, hbid])
    subst hbb
    simp [h1, hf, hact]


/-- The least blocking relation the `GetReadyWork` implementation computes:
a candidate with a `blocks` edge to an existing active issue is blocked, and
a candidate with a `parent-child` edge to a blocked id is blocked. -/
inductive CodeBlocked (issues : List Issue) : String → Prop where
  | direct (i : Issue) (hi : i ∈ issues) (hc : isCandidateStatus i = true)
      (h : ∃ d ∈ i.dependencies, d.dtype = "blocks" ∧
        ∃ b ∈ issues, b.id = d.dependsOnID ∧ isActiveStatus b.status = true) :
      CodeBlocked issues i.id
  | viaParent (i : Issue) (d : Dependency) (hi : i ∈ issues)
      (hc : isCandidateStatus i = true) (hd : d ∈ i.dependencies)
      (ht : d.dtype = "parent-child") (hb : CodeBlocked issues d.dependsOnID) :
      CodeBlocked issues i.id

theorem sweepStep_fst_subset (acc : List String × Bool) (i : Issue) :
    acc.1 ⊆ (sweepStep acc i).1 := by
  unfold sweepStep
  split
  · exact fun _ h => h
  · split
    · intro x hx
      exact mem_addId.mpr (Or.inr hx)
    · exact fun _ h => h

theorem sweep_fold_subset (c : List Issue) :
    ∀ acc : List String × Bool, acc.1 ⊆ (c.foldl sweepStep acc).1 := by
  induction c with
  | nil => intro acc; exact fun _ h => h
  | cons i rest ih =>
    intro acc
    rw [List.foldl_cons]
    exact fun x hx => ih (sweepStep acc i) (sweepStep_fst_subset acc i hx)

theorem sweepStep_flag_mono {acc : List String × Bool} (i : Issue)
    (h : acc.2 = true) : (sweepStep acc i).2 = true := by
  unfold sweepStep
  split
  · exact h
  · split
    · rfl
    · exact h

theorem sweep_fold_flag_mono (c : List Issue) :
    ∀ acc : List String × Bool, acc.2 = true →
      (c.foldl sweepStep acc).2 = true := by
  induction c with
  | nil => intro acc h; exact h
  | cons i rest ih =>
    intro acc h
    rw [List.foldl_cons]
    exact ih _ (sweepStep_flag_mono i h)

theorem sweepStep_eval (acc : List String × Bool) (i : Issue) :
    (i.id ∈ acc.1 → sweepStep acc i = acc) ∧
    (i.id ∉ acc.1 → parentCond acc.1 i = true →
      sweepStep acc i = (addId acc.1 i.id, true)) ∧
    (i.id ∉ acc.1 → parentCond acc.1 i = false → sweepStep acc i = acc) := by
  refine ⟨?_, ?_, ?_⟩
  · intro h; unfold sweepStep; rw [if_pos h]
  · intro h1 h2; unfold sweepStep; rw [if_neg h1, if_pos h2]
  · intro h1 h2; unfold sweepStep; rw [if_neg h1, if_neg (by simp [h2])]

theorem sweep_fold_false (c : List Issue) :
    ∀ acc : List String × Bool, (c.foldl sweepStep acc).2 = false →
      (c.foldl sweepStep acc).1 = acc.1 := by
  induction c with
  | nil => intro acc _; rfl
  | cons i rest ih =>
    intro acc hfalse
    rw [List.foldl_cons] at hfalse ⊢
    by_cases hin : i.id ∈ acc.1
    · rw [(sweepStep_eval acc i).1 hin] at hfalse ⊢
      exact ih acc hfalse
    · by_cases hp : parentCond acc.1 i = true
      · rw [(sweepStep_eval acc i).2.1 hin hp] at hfalse
        rw [sweep_fold_flag_mono rest _ rfl] at hfalse
        cases hfalse
      · rw [(sweepStep_eval acc i).2.2 hin (by simpa using hp)] at hfalse ⊢
        exact ih acc hfalse

theorem sweep_fold_closed (c : List Issue) :
    ∀ acc : List String × Bool, (c.foldl sweepStep acc).2 = false →
      ∀ i ∈ c, i.id ∉ acc.1 → parentCond acc.1 i = false := by
  induction c with
  | nil => intro acc _ i hi; cases hi
  | cons j rest ih =>
    intro acc hfalse i hi hnot
    rw [List.foldl_cons] at hfalse
    by_cases hin : j.id ∈ acc.1
    · rw [(sweepStep_eval acc j).1 hin] at hfalse
      rcases List.mem_cons.mp hi with rfl | hi2
      · exact absurd hin hnot
      · exact ih acc hfalse i hi2 hnot
    · by_cases hp : parentCond acc.1 j = true
      · rw [(sweepStep_eval acc j).2.1 hin hp] at hfalse
        rw [sweep_fold_flag_mono rest _ rfl] at hfalse
        cases hfalse
      · have hpf : parentCond acc.1 j = false := by simpa using hp
        rw [(sweepStep_eval acc j).2.2 hin hpf] at hfalse
        rcases List.mem_cons.mp hi with rfl | hi2
        · exact hpf
        · exact ih acc hfalse i hi2 hnot

theorem sweep_fold_len (c : List Issue) :
    ∀ acc : List String × Bool,
      acc.1.length ≤ (c.foldl sweepStep acc).1.length := by
  induction c with
  | nil => intro acc; exact le_refl _
  | cons i rest ih =>
    intro acc
    rw [List.foldl_cons]
    refine le_trans ?_ (ih (sweepStep acc i))
    unfold sweepStep
    split
    · exact le_refl _
    · split
      · unfold addId
        split
        · exact le_refl _
        · simp
      · exact le_refl _

theorem sweep_fold_grow (c : List Issue) :
    ∀ acc : List String × Bool, acc.2 = false →
      (c.foldl sweepStep acc).2 = true →
      acc.1.length < (c.foldl sweepStep acc).1.length := by
  induction c with
  | nil =>
    intro acc h1 h2
    rw [List.foldl_nil] at h2
    rw [h1] at h2
    cases h2
  | cons i rest ih =>
    intro acc h1 h2
    rw [List.foldl_cons] at h2 ⊢
    by_cases hin : i.id ∈ acc.1
    · rw [(sweepStep_eval acc i).1 hin] at h2 ⊢
      exact ih acc h1 h2
    · by_cases hp : parentCond acc.1 i = true
      · rw [(sweepStep_eval acc i).2.1 hin hp]
        have hlen : acc.1.length < (addId acc.1 i.id).length := by
          unfold addId
          rw [if_neg hin]
          simp
        exact lt_of_lt_of_le hlen (sweep_fold_len rest (addId acc.1 i.id, true))
      · have hpf : parentCond acc.1 i = false := by simpa using hp
        rw [(sweepStep_eval acc i).2.2 hin hpf] at h2 ⊢
        exact ih acc h1 h2

theorem sweep_fold_nodup (c : List Issue) :
    ∀ acc : List String × Bool, acc.1.Nodup →
      (c.foldl sweepStep acc).1.Nodup := by
  induction c with
  | nil => intro acc h; exact h
  | cons i rest ih =>
    intro acc h
    rw [List.foldl_cons]
    refine ih (sweepStep acc i) ?_
    unfold sweepStep
    split
    · exact h
    · split
      · unfold addId
        split
        · exact h
        · exact List.Nodup.cons (by assumption) h
      · exact h

theorem sweep_fold_ids (c : List Issue) :
    ∀ (acc : List String × Bool) (x : String),
      x ∈ (c.foldl sweepStep acc).1 → x ∈ acc.1 ∨ x ∈ c.map Issue.id := by
  induction c with
  | nil => intro acc x h; exact Or.inl h
  | cons i rest ih =>
    intro acc x h
    rw [List.foldl_cons] at h
    rcases ih (sweepStep acc i) x h with h1 | h1
    · unfold sweepStep at h1
      split at h1
      · exact Or.inl h1
      · split at h1
        · rcases mem_addId.mp h1 with rfl | h2
          · exact Or.inr (by simp)
          · exact Or.inl h2
        · exact Or.inl h1
    · exact Or.inr (by simp [h1])

theorem sweep_fold_sound {issues : List Issue} :
    ∀ (cl : List Issue) (acc : List String × Bool),
      (∀ i ∈ cl, i ∈ issues ∧ isCandidateStatus i = true) →
      (∀ x ∈ acc.1, CodeBlocked issues x) →
      ∀ x ∈ (cl.foldl sweepStep acc).1, CodeBlocked issues x := by
  intro cl
  induction cl with
  | nil => intro acc _ hacc x hx; exact hacc x hx
  | cons i rest ih =>
    intro acc hcl hacc x hx
    rw [List.foldl_cons] at hx
    refine ih (sweepStep acc i) (fun j hj => hcl j (List.mem_cons_of_mem i hj))
      ?_ x hx
    intro y hy
    unfold sweepStep at hy
    split at hy
    · exact hacc y hy
    · split at hy
      · rcases mem_addId.mp hy with rfl | h2
        · obtain ⟨d, hd, ht, htgt⟩ := parentCond_iff.mp (by assumption)
          obtain ⟨hi, hc⟩ := hcl i (List.mem_cons_self i rest)
          exact CodeBlocked.viaParent i d hi hc hd ht (hacc _ htgt)
        · exact hacc y h2
      · exact hacc y hy

theorem nodup_subset_length {l1 l2 : List String} (h1 : l1.Nodup)
    (h2 : l1 ⊆ l2) : l1.length ≤ l2.length := by
  have h3 : l1.toFinset.card = l1.length := List.toFinset_card_of_nodup h1
  have h4 : l1.toFinset ⊆ l2.toFinset := by
    intro a ha
    simp only [List.mem_toFinset] at *
    exact h2 ha
  calc l1.length = l1.toFinset.card := h3.symm
    _ ≤ l2.toFinset.card := Finset.card_le_card h4
    _ ≤ l2.length := l2.toFinset_card_le

theorem sweepLoop_subset (c : List Issue) :
    ∀ (fuel : Nat) (b : List String), b ⊆ sweepLoop c fuel b := by
  intro fuel
  induction fuel with
  | zero => intro b; exact fun _ h => h
  | succ n ih =>
    intro b
    unfold sweepLoop
    dsimp only
    split
    · exact fun x hx => ih _ (sweep_fold_subset c (b, false) hx)
    · exact fun x hx => sweep_fold_subset c (b, false) hx

theorem sweepLoop_sound {issues : List Issue} {c : List Issue}
    (hc : ∀ i ∈ c, i ∈ issues ∧ isCandidateStatus i = true) :
    ∀ (fuel : Nat) (b : List String), (∀ x ∈ b, CodeBlocked issues x) →
      ∀ x ∈ sweepLoop c fuel b, CodeBlocked issues x := by
  intro fuel
  induction fuel with
  | zero => intro b hb x hx; exact hb x hx
  | succ n ih =>
    intro b hb x hx
    unfold sweepLoop at hx
    dsimp only at hx
    split at hx
    · exact ih _ (sweep_fold_sound c (b, false) hc hb) x hx
    · exact sweep_fold_sound c (b, false) hc hb x hx

theorem sweepLoop_fix (c : List Issue) :
    ∀ (fuel : Nat) (b : List String), b.Nodup →
      (∀ x ∈ b, x ∈ c.map Issue.id) →
      c.length + 1 ≤ fuel + b.length →
      (sweepOnce c (sweepLoop c fuel b)).2 = false := by
  intro fuel
  induction fuel with
  | zero =>
    intro b hnd hids hlen
    have hble : b.length ≤ c.length := by
      have := nodup_subset_length hnd hids
      simpa using this
    omega
  | succ n ih =>
    intro b hnd hids hlen
    unfold sweepLoop
    dsimp only
    cases hflag : (sweepOnce c b).2 with
    | false =>
      simp only [Bool.false_eq_true, if_false]
      have heq : (sweepOnce c b).1 = b := sweep_fold_false c (b, false) hflag
      rw [heq]
      exact hflag
    | true =>
      simp only [if_true]
      refine ih (sweepOnce c b).1 (sweep_fold_nodup c (b, false) hnd) ?_ ?_
      · intro x hx
        rcases sweep_fold_ids c (b, false) x hx with h1 | h1
        · exact hids x h1
        · exact h1
      · have hgrow : b.length < (sweepOnce c b).1.length :=
          sweep_fold_grow c (b, false) rfl hflag
        omega

theorem nodup_directBlockedPass (src cands : List Issue) :
    (directBlockedPass src cands).Nodup := by
  unfold directBlockedPass
  suffices h : ∀ acc : List String, acc.Nodup →
      (cands.foldl
        (fun acc i => if directCond src i then addId acc i.id else acc)
        acc).Nodup by
    exact h [] List.nodup_nil
  induction cands with
  | nil => intro acc h; exact h
  | cons i rest ih =>
    intro acc h
    rw [List.foldl_cons]
    refine ih _ ?_
    split
    · unfold addId
      split
      · exact h
      · exact List.Nodup.cons (by assumption) h
    · exact h

theorem mem_blockedFinal_iff {issues : List Issue}
    (hnd : (issues.map Issue.id).Nodup) (x : String) :
    (x ∈ sweepLoop (issues.filter isCandidateStatus)
        ((issues.filter isCandidateStatus).length + 1)
        (directBlockedPass issues (issues.filter isCandidateStatus))) ↔
      CodeBlocked issues x := by
  have hcand : ∀ i ∈ issues.filter isCandidateStatus,
      i ∈ issues ∧ isCandidateStatus i = true := by
    intro i hi
    exact ⟨(List.mem_filter.mp hi).1, (List.mem_filter.mp hi).2⟩
  constructor
  · intro hx
    refine sweepLoop_sound hcand _ _ ?_ x hx
    intro y hy
    obtain ⟨i, hi, rfl, hcdir⟩ := mem_directBlockedPass.mp hy
    obtain ⟨hii, hic⟩ := hcand i hi
    exact CodeBlocked.direct i hii hic ((directCond_iff hnd i).mp hcdir)
  · intro hx
    induction hx with
    | direct i hi hcnd hex =>
      refine sweepLoop_subset _ _ _ ?_
      exact mem_directBlockedPass.mpr
        ⟨i, List.mem_filter.mpr ⟨hi, hcnd⟩, rfl, (directCond_iff hnd i).mpr hex⟩
    | viaParent i d hi hcnd hd ht hb IH =>
      by_contra hnot
      have hfix : (sweepOnce (issues.filter isCandidateStatus)
          (sweepLoop (issues.filter isCandidateStatus)
            ((issues.filter isCandidateStatus).length + 1)
            (directBlockedPass issues (issues.filter isCandidateStatus)))).2
          = false := by
        refine sweepLoop_fix _ _ _
          (nodup_directBlockedPass issues _) ?_ (by omega)
        intro y hy
        obtain ⟨j, hj, rfl, _⟩ := mem_directBlockedPass.mp hy
        exact List.mem_map.mpr ⟨j, hj, rfl⟩
      unfold sweepOnce at hfix
      have hclosed := sweep_fold_closed _ _ hfix i
        (List.mem_filter.mpr ⟨hi, hcnd⟩) hnot
      have hpc : parentCond (sweepLoop (issues.filter isCandidateStatus)
          ((issues.filter isCandidateStatus).length + 1)
          (directBlockedPass issues (issues.filter isCandidateStatus))) i
          = true :=
        parentCond_iff.mpr ⟨d, hd, ht, IH⟩
      rw [hclosed] at hpc
      cases hpc

/-! ### C2: assembly -/

/-- Spec-side (claim wording): `y` is reachable from `x` along one or more
`blocks` edges, regardless of the statuses of intermediate issues. -/
inductive BlocksReaches (issues : List Issue) : String → String → Prop where
  | edge (i : Issue) (d : Dependency) (hi : i ∈ issues)
      (hd : d ∈ i.dependencies) (ht : d.dtype = "blocks") :
      BlocksReaches issues i.id d.dependsOnID
  | tail (i : Issue) (d : Dependency) (z : String) (hi : i ∈ issues)
      (hd : d ∈ i.dependencies) (ht : d.dtype = "blocks")
      (h : BlocksReaches issues d.dependsOnID z) :
      BlocksReaches issues i.id z

/-- Spec-side (claim wording): an issue is blocked when a path of `blocks`
edges from it ends at an active issue, or a `parent-child` ancestor chain
reaches a blocked issue. -/
inductive SpecBlocked (issues : List Issue) : String → Prop where
  | viaBlocks (x y : String) (h : BlocksReaches issues x y)
      (b : Issue) (hb : b ∈ issues) (hid : b.id = y)
      (hact : isActiveStatus b.status = true) : SpecBlocked issues x
  | viaParent (i : Issue) (d : Dependency) (hi : i ∈ issues)
      (hd : d ∈ i.dependencies) (ht : d.dtype = "parent-child")
      (hb : SpecBlocked issues d.dependsOnID) : SpecBlocked issues i.id

/-- C2 counterexample store: `a` (open) blocks-depends on `b` (closed),
which blocks-depends on `c` (open). -/
def c2IssueA : Issue := { id := "a", dependencies := [⟨"a", "b", "blocks"⟩] }

def c2IssueB : Issue :=
  { id := "b", status := "closed", dependencies := [⟨"b", "c", "blocks"⟩] }

def c2IssueC : Issue := { id := "c" }

def c2Bad : List Issue := [c2IssueA, c2IssueB, c2IssueC]

/-- **C2 (counterexample).**  In the store `a →blocks b (closed) →blocks c
(open)`, the path of `blocks` edges `a → b → c` ends at the active issue
`c`, so the claim says `a` is excluded from ready work; yet `GetReadyWork`
returns `a`, because the code only inspects the direct `blocks` target `b`,
which is inactive. -/
theorem c2_counterexample :
    c2IssueA ∈ GetReadyWork c2Bad
      { status := "", priority := none, assignee := none, limit := 0 } ∧
    isCandidateStatus c2IssueA = true ∧
    SpecBlocked c2Bad "a" := by
  refine ⟨by decide, by decide, ?_⟩
  refine SpecBlocked.viaBlocks "a" "c" ?_ c2IssueC (by decide) rfl (by decide)
  exact BlocksReaches.tail c2IssueA ⟨"a", "b", "blocks"⟩ "c" (by decide)
    (by decide) rfl
    (BlocksReaches.edge c2IssueB ⟨"b", "c", "blocks"⟩ (by decide) (by decide)
      rfl)

/-- **C2.**  (amended)  For a store with pairwise-distinct issue ids and no
filters, `GetReadyWork` returns exactly the issues of candidate status
(open or in_progress) that are not in the least blocked set: a candidate
with a direct `blocks` dependency on an existing active issue is blocked,
and a candidate with a `parent-child` dependency on a blocked id is
blocked.  Blocking does not propagate along chains of `blocks` edges. -/
theorem c2_ready_iff_not_blocked (issues : List Issue) (i : Issue)
    (hnd : (issues.map Issue.id).Nodup) (hmem : i ∈ issues) :
    (i ∈ GetReadyWork issues
        { status := "", priority := none, assignee := none, limit := 0 } ↔
      (isCandidateStatus i = true ∧ ¬ CodeBlocked issues i.id)) := by
  have hmf : ∀ j : Issue, matchesFilter j
      { status := none, issueType := none, priority := none,
        assignee := none, labels := [], labelsAny := [], ids := [],
        titleSearch := "" } = true := fun j => rfl
  have hall : issues.filter (fun j => matchesFilter j
      { status := none, issueType := none, priority := none,
        assignee := none, labels := [], labelsAny := [], ids := [],
        titleSearch := "" }) = issues :=
    List.filter_eq_self.mpr (fun a _ => hmf a)
  unfold GetReadyWork
  simp only [reduceIte]
  rw [hall]
  rw [show (decide ((0 : Int) > 0)) = false from rfl]
  simp only [Bool.false_and, Bool.false_eq_true, if_false]
  rw [mem_sortReady, List.mem_filter, List.mem_filter]
  rw [Bool.not_eq_true', decide_eq_false_iff_not]
  rw [mem_blockedFinal_iff hnd]
  constructor
  · rintro ⟨⟨-, hc⟩, hb⟩
    exact ⟨hc, hb⟩
  · rintro ⟨hc, hb⟩
    exact ⟨⟨hmem, hc⟩, hb⟩

/-- **C2 (witness).**  The amended theorem instantiated on the one-issue
store `[c]`: ids are distinct, `c` is a member, and the equivalence holds
there. -/
theorem c2_witness :
    ([c2IssueC].map Issue.id).Nodup ∧ c2IssueC ∈ [c2IssueC] ∧
      (c2IssueC ∈ GetReadyWork [c2IssueC]
          { status := "", priority := none, assignee := none, limit := 0 } ↔
        (isCandidateStatus c2IssueC = true ∧
          ¬ CodeBlocked [c2IssueC] c2IssueC.id)) :=
  ⟨by decide, by decide,
    c2_ready_iff_not_blocked [c2IssueC] c2IssueC (by decide) (by decide)⟩

/-! ### C3: `DetectCycles` (stubs.go) -/

/-- The adjacency list `DetectCycles` builds: for each issue in order, each
dependency target is appended under the issue id (all edge types). -/
def adjacency (issues : List Issue) (x : String) : List String :=
  issues.foldl
    (fun acc i =>
      if i.id = x then acc ++ i.dependencies.map Dependency.dependsOnID
      else acc) []

/-- Go byte-wise `<` on strings (code-point-wise here; the ids involved are
ASCII, where the two coincide). -/
def goLtChars : List Char → List Char → Bool
  | [], [] => false
  | [], _ :: _ => true
  | _ :: _, [] => false
  | a :: as, b :: bs =>
    if a.toNat < b.toNat then true
    else if b.toNat < a.toNat then false
    else goLtChars as bs

def goStrLess (a b : String) : Bool := goLtChars a.data b.data

/-- The index of the lexicographically smallest id in a cycle path (the
`minIdx` scan of `getCycleKey`; starting the scan at 0 instead of 1 is
harmless since `<` is irreflexive). -/
def minIdxGo (path : List String) : Nat :=
  (List.range path.length).foldl
    (fun m i => if goStrLess (path.getD i "") (path.getD m "") then i else m) 0

/-- `strings.Join`. -/
def goJoin (sep : String) : List String → String
  | [] => ""
  | [x] => x
  | x :: y :: rest => x ++ sep ++ goJoin sep (y :: rest)

/-- `getCycleKey` (stubs.go): rotate the path to start at its
lexicographically smallest id and join with an arrow. -/
def getCycleKey (path : List String) : String :=
  if path.isEmpty then ""
  else
    goJoin "→" ((List.range path.length).map
      (fun i => path.getD ((minIdxGo path + i) % path.length) ""))

/-- The mutable state of the `DetectCycles` DFS: the emitted cycles, the
set of seen (normalized) cycle keys, and the shared visited set. -/
structure DetectSt where
  cycles : List (List Issue)
  seen : List String
  visited : List String
deriving Repr, DecidableEq

/-- `path.findIdx?`, written out (the `for i, id := range path` scan). -/
def goFindIdx (p : String → Bool) : List String → Option Nat
  | [] => none
  | x :: xs => if p x then some 0 else (goFindIdx p xs).map (fun n => n + 1)

/-- The recursive `dfs` of `DetectCycles`, with explicit fuel: on meeting a
node already on the path, emit the cycle portion unless its normalized key
was already seen; on a fully-visited node, abort; otherwise push the node,
recurse into its adjacency, and mark it visited. -/
def dfsDetect (issues : List Issue) :
    Nat → String → List String → DetectSt → DetectSt
  | 0, _, _, st => st
  | fuel + 1, issueID, path, st =>
    match goFindIdx (fun id => id == issueID) path with
    | some i =>
      let cyclePath := path.drop i
      let key := getCycleKey cyclePath
      if key ∈ st.seen then st
      else
        let cycleIssues := cyclePath.filterMap (fun cid => mapFind? issues cid)
        { st with
          seen := st.seen ++ [key],
          cycles :=
            if cycleIssues.length > 0 then st.cycles ++ [cycleIssues]
            else st.cycles }
    | none =>
      if issueID ∈ st.visited then st
      else
        let st' := (adjacency issues issueID).foldl
          (fun acc depID => dfsDetect issues fuel depID (path ++ [issueID]) acc)
          st
        { st' with visited := st'.visited ++ [issueID] }

/-- An over-approximation of the DFS depth, used as fuel. -/
def detectFuel (issues : List Issue) : Nat :=
  issues.length + issues.foldl (fun n i => n + i.dependencies.length) 0 + 1

/-- `DetectCycles` (stubs.go), as a function of the `ListIssues` result:
run the DFS from every not-yet-visited issue and collect the cycles. -/
def DetectCycles (issues : List Issue) : List (List Issue) :=
  (issues.foldl
    (fun st issue =>
      if issue.id ∈ st.visited then st
      else dfsDetect issues (detectFuel issues) issue.id [] st)
    ⟨[], [], []⟩).cycles

/-- C3 counterexample store, first component: the 3-cycle
`u0 → v → w → u0` with the shortcut edge `u0 → w` listed first. -/
def c3u0 : Issue :=
  { id := "u0",
    dependencies := [⟨"u0", "w", "blocks"⟩, ⟨"u0", "v", "blocks"⟩] }

def c3v : Issue := { id := "v", dependencies := [⟨"v", "w", "blocks"⟩] }

def c3w : Issue := { id := "w", dependencies := [⟨"w", "u0", "blocks"⟩] }

/-- C3 counterexample store, second component: `p → r` and the 2-cycle
`r ⇄ q`, entered from `p` so the DFS reaches the cycle at `r`. -/
def c3p : Issue := { id := "p", dependencies := [⟨"p", "r", "blocks"⟩] }

def c3q : Issue := { id := "q", dependencies := [⟨"q", "r", "blocks"⟩] }

def c3r : Issue := { id := "r", dependencies := [⟨"r", "q", "blocks"⟩] }

def c3Store : List Issue := [c3u0, c3v, c3w, c3p, c3q, c3r]

/-- Spec-side (claim wording): reachability in the projection of the
dependency graph that ignores edge types. -/
inductive DepReach (issues : List Issue) : String → String → Prop where
  | here (x : String) : DepReach issues x x
  | step (i : Issue) (d : Dependency) (z : String) (hi : i ∈ issues)
      (hd : d ∈ i.dependencies) (h : DepReach issues d.dependsOnID z) :
      DepReach issues i.id z

/-- Spec-side (claim wording): two nodes lie in the same strongly connected
component of the ignore-edge-type projection. -/
def SameSCC (issues : List Issue) (x y : String) : Prop :=
  DepReach issues x y ∧ DepReach issues y x

/-- **C3 (counterexample).**  On the store
`u0 → {w, v}`, `v → w`, `w → u0`, `p → r`, `q → r`, `r → q`,
`DetectCycles` reports exactly the cycles `[u0, w]` and `[r, q]`.  The node
`v` lies in a strongly connected component of size ≥ 2 (it is mutually
reachable with `w`), yet appears in no reported cycle, so the union of the
reported cycles is not the set of SCCs of size ≥ 2; and the reported cycle
`[r, q]` does not start at its lexicographically smallest node `q`
(`"q" < "r"`), so reported cycles are not normalized as claimed. -/
theorem c3_counterexample :
    (DetectCycles c3Store).map (fun cyc => cyc.map Issue.id) =
      [["u0", "w"], ["r", "q"]] ∧
    ("v" ∉ (DetectCycles c3Store).foldl
      (fun acc cyc => acc ++ cyc.map Issue.id) []) ∧
    SameSCC c3Store "v" "w" ∧ "v" ≠ "w" ∧
    goStrLess "q" "r" = true := by
  refine ⟨by decide, by decide, ⟨?_, ?_⟩, by decide, by decide⟩
  · exact DepReach.step c3v ⟨"v", "w", "blocks"⟩ "w" (by decide) (by decide)
      (DepReach.here "w")
  · exact DepReach.step c3w ⟨"w", "u0", "blocks"⟩ "v" (by decide) (by decide)
      (DepReach.step c3u0 ⟨"u0", "v", "blocks"⟩ "v" (by decide) (by decide)
        (DepReach.here "v"))

/-- The edge relation of the graph `DetectCycles` walks. -/
def Adj (issues : List Issue) (a b : String) : Prop :=
  b ∈ adjacency issues a

/-- The cyclically-consecutive pairs of a list: `(l[k], l[(k+1) % len])`. -/
def cyclePairs (l : List String) : List (String × String) :=
  l.zip (l.drop 1 ++ l.take 1)

/-- A nonempty list of ids forming a directed cycle: every cyclically
consecutive pair is an edge (including last → first). -/
def IsDirCycle (issues : List Issue) (l : List String) : Prop :=
  l ≠ [] ∧ ∀ p ∈ cyclePairs l, Adj issues p.1 p.2

theorem chain_cycle_pairs {issues : List Issue} :
    ∀ (rest : List String) (x y : String),
      List.Chain' (Adj issues) (y :: (rest ++ [x])) →
      ∀ p ∈ (y :: rest).zip (rest ++ [x]), Adj issues p.1 p.2 := by
  intro rest
  induction rest with
  | nil =>
    intro x y h p hp
    have h1 := (List.chain'_cons.mp h).1
    simp only [List.nil_append, List.zip_cons_cons, List.zip_nil_left,
      List.mem_singleton] at hp
    rw [hp]
    exact h1
  | cons a t ihr =>
    intro x y h p hp
    rw [List.cons_append] at h
    have h1 := List.chain'_cons.mp h
    rw [List.cons_append, List.zip_cons_cons] at hp
    rcases List.mem_cons.mp hp with rfl | hp2
    · exact h1.1
    · exact ihr x a h1.2 p hp2

theorem goFindIdx_decomp {p : String → Bool} :
    ∀ {l : List String} {i : Nat}, goFindIdx p l = some i →
      ∃ pre y post, l = pre ++ y :: post ∧ pre.length = i ∧ p y = true := by
  intro l
  induction l with
  | nil => intro i h; cases h
  | cons x xs ihl =>
    intro i h
    unfold goFindIdx at h
    by_cases hp : p x = true
    · rw [if_pos hp] at h
      injection h with h0
      exact ⟨[], x, xs, rfl, h0, hp⟩
    · rw [if_neg hp] at h
      cases hx : goFindIdx p xs with
      | none => rw [hx] at h; cases h
      | some j =>
        rw [hx] at h
        injection h with hji
        obtain ⟨pre, y, post, heq, hlen, hpy⟩ := ihl hx
        refine ⟨x :: pre, y, post, by rw [heq]; rfl, ?_, hpy⟩
        rw [List.length_cons, hlen]
        exact hji

theorem adjacency_of_no_issue :
    ∀ (issues : List Issue) (x : String),
      (∀ b ∈ issues, ¬ b.id = x) →
      ∀ acc : List String,
        issues.foldl
          (fun acc i =>
            if i.id = x then acc ++ i.dependencies.map Dependency.dependsOnID
            else acc) acc = acc := by
  intro issues
  induction issues with
  | nil => intro x h acc; rfl
  | cons i rest ihl =>
    intro x h acc
    rw [List.foldl_cons, if_neg (h i (List.mem_cons_self i rest))]
    exact ihl x (fun b hb => h b (List.mem_cons_of_mem i hb)) acc

theorem adjacency_mem_exists {issues : List Issue} {x : String}
    (h : adjacency issues x ≠ []) : ∃ b ∈ issues, b.id = x := by
  by_contra hno
  push_neg at hno
  refine h ?_
  unfold adjacency
  exact adjacency_of_no_issue issues x hno []

theorem filterMap_mapFind_ids {issues : List Issue} :
    ∀ l : List String, (∀ x ∈ l, ∃ b ∈ issues, b.id = x) →
      (l.filterMap (fun cid => mapFind? issues cid)).map Issue.id = l ∧
      ∀ iss ∈ l.filterMap (fun cid => mapFind? issues cid), iss ∈ issues := by
  intro l
  induction l with
  | nil =>
    intro _
    exact ⟨rfl, fun iss h => absurd h (List.not_mem_nil iss)⟩
  | cons x xs ihl =>
    intro h
    obtain ⟨b, hb, hbid⟩ := h x (List.mem_cons_self x xs)
    obtain ⟨b2, hf⟩ := mapFind?_isSome ⟨b, hb, hbid⟩
    obtain ⟨hb2mem, hb2id⟩ := mapFind?_some hf
    obtain ⟨ih1, ih2⟩ := ihl (fun y hy => h y (List.mem_cons_of_mem x hy))
    constructor
    · simp only [List.filterMap_cons, hf, List.map_cons, ih1, hb2id]
    · intro iss hiss
      simp only [List.filterMap_cons, hf] at hiss
      rcases List.mem_cons.mp hiss with rfl | h2
      · exact hb2mem
      · exact ih2 iss h2

/-- The invariant the DFS maintains on its state: every emitted cycle
consists of store issues whose id sequence is a directed cycle, the
normalized keys of the emitted cycles are pairwise distinct, and each such
key has been recorded in `seen`. -/
def StInv (issues : List Issue) (st : DetectSt) : Prop :=
  (∀ cyc ∈ st.cycles,
     (∀ iss ∈ cyc, iss ∈ issues) ∧ IsDirCycle issues (cyc.map Issue.id)) ∧
  (st.cycles.map (fun cyc => getCycleKey (cyc.map Issue.id))).Nodup ∧
  (∀ cyc ∈ st.cycles, getCycleKey (cyc.map Issue.id) ∈ st.seen)

theorem dfsDetect_inv (issues : List Issue) :
    ∀ (fuel : Nat) (issueID : String) (path : List String) (st : DetectSt),
      List.Chain' (Adj issues) (path ++ [issueID]) →
      StInv issues st →
      StInv issues (dfsDetect issues fuel issueID path st) := by
  intro fuel
  induction fuel with
  | zero => intro _ _ st _ h; exact h
  | succ n ih =>
    intro issueID path st hchain hst
    unfold dfsDetect
    cases hfind : goFindIdx (fun id => id == issueID) path with
    | some i =>
      dsimp only
      by_cases hseen : getCycleKey (path.drop i) ∈ st.seen
      · rw [if_pos hseen]
        exact hst
      · rw [if_neg hseen]
        obtain ⟨pre, y, post, heq, hlen, hpy⟩ := goFindIdx_decomp hfind
        have hy : y = issueID := by simpa using hpy
        have hdrop : path.drop i = y :: post := by
          rw [heq, ← hlen]
          exact List.drop_left pre (y :: post)
        rw [hdrop] at hseen ⊢
        have hsuffix : List.Chain' (Adj issues) (y :: (post ++ [y])) := by
          have hch2 : List.Chain' (Adj issues) ((pre ++ y :: post) ++ [y]) := by
            rw [heq, ← hy] at hchain
            exact hchain
          exact hch2.suffix ⟨pre, by simp⟩
        have hedges := chain_cycle_pairs post y y hsuffix
        have hmap : ∀ x ∈ y :: post, ∃ b ∈ issues, b.id = x := by
          intro x hx
          have hxfst : x ∈ ((y :: post).zip (post ++ [y])).map Prod.fst := by
            rw [List.map_fst_zip]
            · exact hx
            · simp
          obtain ⟨pr, hpr, hprx⟩ := List.mem_map.mp hxfst
          have hadj := hedges pr hpr
          unfold Adj at hadj
          rw [hprx] at hadj
          exact adjacency_mem_exists (List.ne_nil_of_mem hadj)
        obtain ⟨hids, hmemi⟩ := filterMap_mapFind_ids (y :: post) hmap
        have hlenpos :
            ((y :: post).filterMap (fun cid => mapFind? issues cid)).length
              > 0 := by
          have hcl := congrArg List.length hids
          rw [List.length_map] at hcl
          rw [hcl]
          simp
        rw [if_pos hlenpos]
        obtain ⟨hinv1, hinv2, hinv3⟩ := hst
        refine ⟨?_, ?_, ?_⟩
        · intro cyc hcyc
          rcases List.mem_append.mp hcyc with h1 | h1
          · exact hinv1 cyc h1
          · have hc2 :
                cyc = (y :: post).filterMap (fun cid => mapFind? issues cid) :=
              by simpa using h1
            rw [hc2]
            refine ⟨hmemi, ?_⟩
            rw [hids]
            exact ⟨by simp, hedges⟩
        · rw [List.map_append]
          refine List.Nodup.append hinv2 (List.nodup_singleton _) ?_
          intro a ha hb
          obtain ⟨cyc, hcyc, hka⟩ := List.mem_map.mp ha
          have h3 := hinv3 cyc hcyc
          simp only [List.map_cons, List.map_nil, List.mem_singleton] at hb
          rw [hb] at hka
          rw [hids] at hka
          rw [hka] at h3
          exact hseen h3
        · intro cyc hcyc
          rcases List.mem_append.mp hcyc with h1 | h1
          · exact List.mem_append_left _ (hinv3 cyc h1)
          · have hc2 :
                cyc = (y :: post).filterMap (fun cid => mapFind? issues cid) :=
              by simpa using h1
            rw [hc2, hids]
            exact List.mem_append_right _ (List.mem_singleton_self _)
    | none =>
      dsimp only
      by_cases hv : issueID ∈ st.visited
      · rw [if_pos hv]
        exact hst
      · rw [if_neg hv]
        have hfold : ∀ (ds : List String), (∀ d ∈ ds, Adj issues issueID d) →
            ∀ st0, StInv issues st0 →
            StInv issues (ds.foldl
              (fun acc depID =>
                dfsDetect issues n depID (path ++ [issueID]) acc) st0) := by
          intro ds
          induction ds with
          | nil => intro _ st0 h0; exact h0
          | cons d rest ihds =>
            intro hds st0 h0
            rw [List.foldl_cons]
            refine ihds (fun e he => hds e (List.mem_cons_of_mem d he)) _ ?_
            refine ih d (path ++ [issueID]) st0 ?_ h0
            rw [List.chain'_append]
            refine ⟨hchain, List.chain'_singleton d, ?_⟩
            intro u hu v hv2
            rw [List.getLast?_concat] at hu
            simp only [Option.mem_def, Option.some.injEq] at hu
            simp only [List.head?_cons, Option.mem_def, Option.some.injEq]
              at hv2
            rw [← hu, ← hv2] at *
            rw [hu, hv2]
            exact hds d (List.mem_cons_self d rest)
        have hst' := hfold (adjacency issues issueID) (fun d hd => hd) st hst
        exact ⟨hst'.1, hst'.2.1, hst'.2.2⟩

/-- **C3.**  (amended)  Every cycle reported by `DetectCycles` is sound —
its members are store issues and its id sequence is a genuine directed
cycle of the ignore-edge-type dependency graph (each cyclically consecutive
pair, including last → first, is an edge) — and no cycle is reported twice:
the rotation-normalized keys of the reported cycles are pairwise distinct.
The reported cycles need not cover all strongly connected components of
size ≥ 2, and a reported cycle starts at the node where the DFS re-entered
its path, not necessarily at its lexicographically smallest node. -/
theorem c3_cycles_sound_and_deduped (issues : List Issue) :
    (∀ cyc ∈ DetectCycles issues,
       (∀ iss ∈ cyc, iss ∈ issues) ∧ IsDirCycle issues (cyc.map Issue.id)) ∧
    ((DetectCycles issues).map
      (fun cyc => getCycleKey (cyc.map Issue.id))).Nodup := by
  have h0 : StInv issues ⟨[], [], []⟩ :=
    ⟨fun c h => absurd h (List.not_mem_nil c), List.nodup_nil,
     fun c h => absurd h (List.not_mem_nil c)⟩
  have hmain : ∀ (l : List Issue) (st : DetectSt), StInv issues st →
      StInv issues (l.foldl
        (fun st issue =>
          if issue.id ∈ st.visited then st
          else dfsDetect issues (detectFuel issues) issue.id [] st) st) := by
    intro l
    induction l with
    | nil => intro st h; exact h
    | cons i rest ihl =>
      intro st h
      rw [List.foldl_cons]
      refine ihl _ ?_
      by_cases hv : i.id ∈ st.visited
      · rw [if_pos hv]
        exact h
      · rw [if_neg hv]
        exact dfsDetect_inv issues (detectFuel issues) i.id [] st
          (List.chain'_singleton i.id) h
  have hfin := hmain issues ⟨[], [], []⟩ h0
  exact ⟨hfin.1, hfin.2.1⟩

end Beads
